import Mathlib

/-!
Verification of the incremental dependency-tracking layer (`src/host.ts`).

The development shallowly embeds the TypeScript source into Lean:

* JavaScript objects used as string-keyed maps become insertion-ordered
  association lists (`setA` mirrors `obj[k] = v`: update in place when the
  key exists, append otherwise; `lookupA` mirrors property lookup).
* `DependencyManager`, the valid-file flags and the file store are records
  of such lists.
* The recursive resolution engines (`checkDependencies*`), the chain applier
  (`applyChain`) and the recompile-reason finder (`recompileReason*`) are
  general-recursive in the source; they are embedded as fuel-indexed
  interpreters returning `Option` (`none` = the given step budget was
  exhausted, `some` = the source function returns/throws).
* Thrown JavaScript errors become the `JsErr` inductive carried in
  `Except`; promise combinators of the concurrent mode are interpreted
  eagerly (`.then` = sequencing, `.error`/`.catch` = error handling,
  `Promise.all` = run every branch, then fail with the first recorded
  rejection) so that the concurrent engine denotes the quiescent final
  state in which every launched branch has run.
* External collaborators (path resolver, filesystem, import extractor,
  language service) are parameters collected in `Env`.
-/

namespace Host

/-! ## JavaScript-object-as-map primitives -/

/-- Property lookup `obj[k]` on a string-keyed object. -/
def lookupA {α : Type} : List (String × α) → String → Option α
  | [], _ => none
  | (k', v) :: rest, k => if k' = k then some v else lookupA rest k

/-- `obj.hasOwnProperty(k)`. -/
def hasKeyA {α : Type} (l : List (String × α)) (k : String) : Bool :=
  (lookupA l k).isSome

/-- Property write `obj[k] = v`: updates in place when the key exists,
appends (JS insertion order) otherwise. -/
def setA {α : Type} : List (String × α) → String → α → List (String × α)
  | [], k, v => [(k, v)]
  | (k', v') :: rest, k, v =>
      if k' = k then (k, v) :: rest else (k', v') :: setA rest k v

/-- `set[k] = true` on an object used as a string set (only membership is
ever observed, so the set is kept as a list of keys). -/
def setAdd (l : List String) (k : String) : List String :=
  if k ∈ l then l else k :: l

/-! ## Path and suffix helpers (`path.extname`, `path.dirname`, regexes) -/

/-- Characters of the basename of a path, reversed (everything after the
last `/`). -/
def revBasenameChars (s : String) : List Char :=
  s.data.reverse.takeWhile (fun c => c ≠ '/')

/-- Scan the reversed basename up to its first dot: the reversed extension
(dot included), or `none` when there is no dot or the only dot leads the
basename. -/
def extRev : List Char → List Char → Option (List Char)
  | _, [] => none
  | acc, c :: rest =>
      if c = '.' then (if rest = [] then none else some (acc ++ [c]))
      else extRev (acc ++ [c]) rest

/-- Model of Node's `path.extname`: the suffix of the basename from its
last dot, empty when the basename has no dot or only a leading dot. -/
def extname (s : String) : String :=
  match extRev [] (revBasenameChars s) with
  | none => ""
  | some e => ⟨e.reverse⟩

/-- Model of Node's `path.dirname` (everything before the last `/`). -/
def dirname (s : String) : String :=
  let rest := (s.data.reverse.dropWhile (fun c => c ≠ '/')).dropWhile (fun c => c = '/')
  if s.data.any (fun c => c = '/') then
    if rest = [] then "/" else ⟨rest.reverse⟩
  else "."

/-- The regex `/\.d.ts$/` of `checkDependenciesInternal{Async,Sync}`: note
the unescaped middle dot, so the suffix is `.d`, one arbitrary character,
then `ts`. -/
def isTypeDeclarationName (s : String) : Bool :=
  match s.data.reverse with
  | 's' :: 't' :: _ :: 'd' :: '.' :: _ => true
  | _ => false

/-- The regex `/\.js$/`: the path ends in the literal suffix `.js`. -/
def isRequiredModuleName (s : String) : Bool :=
  match s.data.reverse with
  | 's' :: 'j' :: '.' :: _ => true
  | _ => false

/-- The regex `/\.d\.ts$/` of `resolveSync`/`resolveAsync` (fully escaped):
the path ends in the literal suffix `.d.ts`. -/
def endsWithDdTs (s : String) : Bool :=
  match s.data.reverse with
  | 's' :: 't' :: '.' :: 'd' :: '.' :: _ => true
  | _ => false

instance {ε α : Type} [DecidableEq ε] [DecidableEq α] : DecidableEq (Except ε α) :=
  fun x y =>
    match x, y with
    | .ok a, .ok b =>
        if h : a = b then isTrue (by rw [h])
        else isFalse (by intro hh; cases hh; exact h rfl)
    | .error a, .error b =>
        if h : a = b then isTrue (by rw [h])
        else isFalse (by intro hh; cases hh; exact h rfl)
    | .ok _, .error _ => isFalse (by intro hh; cases hh)
    | .error _, .ok _ => isFalse (by intro hh; cases hh)

/-! ## DependencyManager -/

/-- `DependencyManager`: the dependency graph (`dependencies`, a map from
unit to its ordered direct-dependency list) plus the declaration registry
(`knownTypeDeclarations`, kept as its insertion-ordered key list since
every stored value is `true`). -/
structure DependencyManager where
  dependencies : List (String × List String)
  knownTypeDeclarations : List String
  deriving Repr, DecidableEq

/-- `DependencyManager.clearDependencies`. -/
def DependencyManager.clearDependencies (dm : DependencyManager) (fileName : String) :
    DependencyManager :=
  { dm with dependencies := setA dm.dependencies fileName [] }

/-- `DependencyManager.addDependency`: ensure the entry exists (clearing it
when absent), then push the dependency. -/
def DependencyManager.addDependency (dm : DependencyManager)
    (fileName depFileName : String) : DependencyManager :=
  let dm := if hasKeyA dm.dependencies fileName then dm
            else dm.clearDependencies fileName
  let pushed := (lookupA dm.dependencies fileName).getD [] ++ [depFileName]
  { dm with dependencies := setA dm.dependencies fileName pushed }

/-- `DependencyManager.getDependencies`: ensure the entry exists (clearing
it when absent), then return a copy of it.  The returned list is the value
of the entry; aliasing of the `.slice()` copy is studied separately in the
heap-explicit model `DependencyManagerH` below. -/
def DependencyManager.getDependencies (dm : DependencyManager) (fileName : String) :
    DependencyManager × List String :=
  let dm := if hasKeyA dm.dependencies fileName then dm
            else dm.clearDependencies fileName
  (dm, (lookupA dm.dependencies fileName).getD [])

/-- `DependencyManager.addTypeDeclaration` (`knownTypeDeclarations[f] = true`;
writing `true` over an existing key changes nothing). -/
def DependencyManager.addTypeDeclaration (dm : DependencyManager) (fileName : String) :
    DependencyManager :=
  if fileName ∈ dm.knownTypeDeclarations then dm
  else { dm with knownTypeDeclarations := dm.knownTypeDeclarations ++ [fileName] }

/-- `DependencyManager.hasTypeDeclaration`. -/
def DependencyManager.hasTypeDeclaration (dm : DependencyManager) (fileName : String) :
    Bool :=
  fileName ∈ dm.knownTypeDeclarations

/-! ## ValidManager -/

/-- `ValidManager.isFileValid` on its `files` object: `!!files[f]` (absent
and `false` are both falsy). -/
def isFileValid (valid : List (String × Bool)) (fileName : String) : Bool :=
  (lookupA valid fileName).getD false

/-- `ValidManager.markFileValid`. -/
def markFileValid (valid : List (String × Bool)) (fileName : String) :
    List (String × Bool) :=
  setA valid fileName true

/-- `ValidManager.markFileInvalid`. -/
def markFileInvalid (valid : List (String × Bool)) (fileName : String) :
    List (String × Bool) :=
  setA valid fileName false

/-! ## Unit store (`files`) and `updateFile` -/

/-- One stored unit: `{ text, version }`. -/
structure File where
  text : String
  version : Nat
  deriving Repr, DecidableEq

/-- `State.updateFile` on the `files` map: computes the stored record and
the returned `changed` flag.  Note the source initialises `version = 0` and
only assigns `prevFile.version + 1` in the changed branch, so an unchanged
`checked` update stores version `0`. -/
def updateFile (files : List (String × File)) (fileName text : String)
    (checked : Bool) : List (String × File) × Bool :=
  let prevFile := lookupA files fileName
  let vc : Nat × Bool :=
    match prevFile with
    | none => (0, true)
    | some p => if !checked || (checked && text ≠ p.text) then (p.version + 1, true)
                else (0, false)
  (setA files fileName ⟨text, vc.1⟩, vc.2)

/-- `State.addFile`. -/
def addFile (files : List (String × File)) (fileName text : String) :
    List (String × File) :=
  setA files fileName ⟨text, 0⟩

/-! ## Thrown errors -/

/-- The JavaScript errors thrown by the module: `ResolutionError` (with its
`message`/`fileName` context; the `cause` chain is folded into `message`
exactly as the source concatenates it), `TypeScriptCompilationError`
(carrying the diagnostics list; its `depsDiagnostics` field is always the
empty object) and plain `Error(message)` (the "Emit skipped" error and
filesystem read failures). -/
inductive JsErr where
  | resolutionError (message : String) (fileName : String)
  | compilationError (diagnostics : List String)
  | jsError (message : String)
  deriving Repr, DecidableEq

/-- The `Promise.catch(ResolutionError, …)` type filter. -/
def JsErr.isResolutionError : JsErr → Bool
  | .resolutionError _ _ => true
  | _ => false

/-! ## External collaborators -/

/-- `ts.EmitOutput` as far as the module observes it: the `emitSkipped`
flag plus the opaque emitted payload. -/
structure EmitOutput where
  emitSkipped : Bool
  outputFiles : List String
  deriving Repr, DecidableEq

/-- The language-service facade (`this.services`): an external engine,
modelled as an uninterpreted record of functions.  Diagnostics are opaque
and kept as strings. -/
structure Services where
  getEmitOutput : String → EmitOutput
  getCompilerOptionsDiagnostics : List String
  getSyntacticDiagnostics : String → List String
  getSemanticDiagnostics : String → List String

/-- The external collaborators of one build session.  `resolver` is the
caller-supplied path resolver (`.error e` = the resolver rejected/threw
with message `e`); the concurrent and blocking variants are interpreted by
the same function since promises are interpreted eagerly.  `imports` is
`findImportDeclarations`' result (the import extractor walks the syntax
tree of the external engine, so the raw specifier list per unit is the
"fixed source graph" parameter).  `fsRead` is the filesystem
(`fs.readFile`/`fs.readFileSync`). -/
structure Env where
  resolver : String → String → Except String String
  imports : String → List String
  fsRead : String → Except String String
  services : Services

/-- The mutable part of `State`: the unit store, the dependency manager,
the validity flags and the one-shot runtime latch. -/
structure State where
  files : List (String × File)
  dependencies : DependencyManager
  validFiles : List (String × Bool)
  runtimeRead : Bool
  deriving Repr, DecidableEq

/-! ## Specifier resolution (`resolveSync` / `resolveAsync`) -/

/-- Wrap a resolver failure exactly as both resolve functions do: a
`ResolutionError` whose message appends the requiring unit. -/
def wrapResolutionError (fileName : String) (e : String) : JsErr :=
  .resolutionError (e ++ "\n    Required in " ++ fileName) fileName

/-- `State.resolveSync`: without a file extension, try `defPath + ".ts"`,
then `defPath + ".d.ts"`, then the raw `defPath`; with an extension,
return `.d.ts` paths as-is and otherwise resolve the raw specifier.  Any
resolver failure surfaces as a `ResolutionError`. -/
def resolveSync (resolver : String → String → Except String String)
    (fileName defPath : String) : Except JsErr String :=
  let base := dirname fileName
  let raw : Except String String :=
    if (extname defPath).length = 0 then
      match resolver base (defPath ++ ".ts") with
      | .ok r => .ok r
      | .error _ =>
          match resolver base (defPath ++ ".d.ts") with
          | .ok r => .ok r
          | .error _ => resolver base defPath
    else
      if endsWithDdTs defPath then .ok defPath
      else resolver base defPath
  match raw with
  | .ok r => .ok r
  | .error e => .error (wrapResolutionError fileName e)

/-- `State.resolveAsync`: the same fallback chain built from promise
`.error` handlers; under the eager promise interpretation it computes the
same function as `resolveSync`. -/
def resolveAsync (resolver : String → String → Except String String)
    (fileName defPath : String) : Except JsErr String :=
  let base := dirname fileName
  let chained : Except String String :=
    if (extname defPath).length = 0 then
      match resolver base (defPath ++ ".ts") with
      | .ok r => .ok r
      | .error _ =>
          match resolver base (defPath ++ ".d.ts") with
          | .ok r => .ok r
          | .error _ => resolver base defPath
    else
      if endsWithDdTs defPath then .ok defPath
      else resolver base defPath
  match chained with
  | .ok r => .ok r
  | .error e => .error (wrapResolutionError fileName e)

/-- `State.resolveSync`, instrumented: the same computation additionally
returning, in order, every `(base, specifier)` argument pair the resolver
was invoked with. -/
def resolveSyncCalls (resolver : String → String → Except String String)
    (fileName defPath : String) : Except JsErr String × List (String × String) :=
  let base := dirname fileName
  if (extname defPath).length = 0 then
    match resolver base (defPath ++ ".ts") with
    | .ok r => (.ok r, [(base, defPath ++ ".ts")])
    | .error _ =>
        match resolver base (defPath ++ ".d.ts") with
        | .ok r => (.ok r, [(base, defPath ++ ".ts"), (base, defPath ++ ".d.ts")])
        | .error _ =>
            match resolver base defPath with
            | .ok r => (.ok r,
                [(base, defPath ++ ".ts"), (base, defPath ++ ".d.ts"), (base, defPath)])
            | .error e => (.error (wrapResolutionError fileName e),
                [(base, defPath ++ ".ts"), (base, defPath ++ ".d.ts"), (base, defPath)])
  else
    if endsWithDdTs defPath then (.ok defPath, [])
    else
      match resolver base defPath with
      | .ok r => (.ok r, [(base, defPath)])
      | .error e => (.error (wrapResolutionError fileName e), [(base, defPath)])

/-- `State.resolveAsync`, instrumented the same way (the `.error` handler
chain fires a handler only when the stage before it failed). -/
def resolveAsyncCalls (resolver : String → String → Except String String)
    (fileName defPath : String) : Except JsErr String × List (String × String) :=
  let base := dirname fileName
  let staged : Except String String × List (String × String) :=
    if (extname defPath).length = 0 then
      match resolver base (defPath ++ ".ts") with
      | .ok r => (.ok r, [(base, defPath ++ ".ts")])
      | .error _ =>
          match resolver base (defPath ++ ".d.ts") with
          | .ok r => (.ok r, [(base, defPath ++ ".ts"), (base, defPath ++ ".d.ts")])
          | .error _ =>
              (resolver base defPath,
                [(base, defPath ++ ".ts"), (base, defPath ++ ".d.ts"), (base, defPath)])
    else
      if endsWithDdTs defPath then (.ok defPath, [])
      else (resolver base defPath, [(base, defPath)])
  match staged with
  | (.ok r, calls) => (.ok r, calls)
  | (.error e, calls) => (.error (wrapResolutionError fileName e), calls)

/-! ## The concurrent resolution engine

`checkDependencies` / `checkDependenciesInternalAsync`.  The per-dependency
classification lambda of the second `.map` becomes `classifyAsyncDep`,
parameterised over `check`, the recursive `checkDependencies` continuation;
a slot of `.ok none` is a `null` result (a `.js` module), `.ok (some d)` a
resolved dependency, `.error e` a rejected branch.  `Promise.all` fails
with the first rejected slot after every branch has run. -/

/-- The classification callback of `checkDependenciesInternalAsync`. -/
def classifyAsyncDep (env : Env)
    (check : State → String → Option (State × Except JsErr (List String)))
    (fileName : String) (st : State) (depFileName : String) :
    Option (State × Except JsErr (Option String)) :=
  if isTypeDeclarationName depFileName then
    if st.dependencies.hasTypeDeclaration depFileName then
      some (st, .ok (some depFileName))
    else
      let st := { st with dependencies := st.dependencies.addTypeDeclaration depFileName }
      match check st depFileName with
      | none => none
      | some (st1, .error e) => some (st1, .error e)
      | some (st1, .ok _) => some (st1, .ok (some depFileName))
  else if isRequiredModuleName depFileName then
    some (st, .ok none)
  else
    let st := { st with dependencies := st.dependencies.addDependency fileName depFileName }
    if isFileValid st.validFiles depFileName then
      some (st, .ok (some depFileName))
    else
      let st := { st with validFiles := markFileValid st.validFiles depFileName }
      match check st depFileName with
      | none => none
      | some (st1, .error e) =>
          if e.isResolutionError then
            some ({ st1 with validFiles := markFileInvalid st1.validFiles depFileName },
              .error e)
          else
            some (st1, .error e)
      | some (st1, .ok _) => some (st1, .ok (some depFileName))

/-- Run the classification chains of every import in order (eager
interpretation of the array of promises); a slot whose resolution already
failed keeps its rejection and runs no classification. -/
def asyncLoop (classify : State → String → Option (State × Except JsErr (Option String))) :
    State → List (Except JsErr String) →
      Option (State × List (Except JsErr (Option String)))
  | st, [] => some (st, [])
  | st, .error e :: rest =>
      match asyncLoop classify st rest with
      | none => none
      | some (st', slots) => some (st', .error e :: slots)
  | st, .ok dep :: rest =>
      match classify st dep with
      | none => none
      | some (st1, slot) =>
          match asyncLoop classify st1 rest with
          | none => none
          | some (st', slots) => some (st', slot :: slots)

/-- The first rejection among the settled slots (the value `Promise.all`
rejects with). -/
def firstRejection (slots : List (Except JsErr (Option String))) : Option JsErr :=
  slots.findSome? (fun s => match s with | .error e => some e | .ok _ => none)

/-- `State.checkDependenciesInternalAsync`. -/
def checkDependenciesInternalAsyncF (env : Env)
    (check : State → String → Option (State × Except JsErr (List String)))
    (st : State) (fileName : String) : Option (State × Except JsErr (List String)) :=
  let resolved := (env.imports fileName).map (resolveAsync env.resolver fileName)
  match asyncLoop (classifyAsyncDep env check fileName) st resolved with
  | none => none
  | some (st, slots) =>
      match firstRejection slots with
      | some e => some (st, .error e)
      | none =>
          some (st, .ok ((slots.filterMap Except.toOption).filterMap id))

/-- `State.checkDependencies` (the concurrent entry point): clear the
unit's dependency list; when the unit is already in the store, re-read it
from disk and update it; then run the internal pass.  `fuel` bounds the
recursion depth (`none` = budget exhausted). -/
def checkDependenciesF (env : Env) :
    Nat → State → String → Option (State × Except JsErr (List String))
  | 0, _, _ => none
  | fuel + 1, st, fileName =>
      let st := { st with dependencies := st.dependencies.clearDependencies fileName }
      match lookupA st.files fileName with
      | none =>
          checkDependenciesInternalAsyncF env
            (fun st' f => checkDependenciesF env fuel st' f) st fileName
      | some _ =>
          match env.fsRead fileName with
          | .error e => some (st, .error (.jsError e))
          | .ok text =>
              let st := { st with files := (updateFile st.files fileName text false).1 }
              checkDependenciesInternalAsyncF env
                (fun st' f => checkDependenciesF env fuel st' f) st fileName

/-! ## The sequential resolution engine

`checkDependenciesSync` / `checkDependenciesInternalSync`.  The first
`.map` resolves every import (throwing aborts before any classification);
the second `.map` classifies in order and a thrown error aborts the rest.
The classification lambda returns `undefined` (here `.ok none`) on every
path except the explicit `return null` for `.js` modules, and its
validity bookkeeping unmarks the unit in a `finally`, i.e. also on
success. -/

/-- The classification callback of `checkDependenciesInternalSync`. -/
def classifySyncDep (env : Env)
    (check : State → String → Option (State × Except JsErr (List String)))
    (fileName : String) (st : State) (depFileName : String) :
    Option (State × Except JsErr (Option String)) :=
  if isTypeDeclarationName depFileName then
    if st.dependencies.hasTypeDeclaration depFileName then
      some (st, .ok none)
    else
      let st := { st with dependencies := st.dependencies.addTypeDeclaration depFileName }
      match check st depFileName with
      | none => none
      | some (st1, .error e) => some (st1, .error e)
      | some (st1, .ok _) => some (st1, .ok none)
  else if isRequiredModuleName depFileName then
    some (st, .ok none)
  else
    let st := { st with dependencies := st.dependencies.addDependency fileName depFileName }
    if isFileValid st.validFiles depFileName then
      some (st, .ok none)
    else
      let st := { st with validFiles := markFileValid st.validFiles depFileName }
      match check st depFileName with
      | none => none
      | some (st1, r) =>
          let st2 := { st1 with validFiles := markFileInvalid st1.validFiles depFileName }
          match r with
          | .error e => some (st2, .error e)
          | .ok _ => some (st2, .ok none)

/-- Resolve every import in order; the first thrown `ResolutionError`
aborts the whole map. -/
def resolveAllSync (resolver : String → String → Except String String)
    (fileName : String) : List String → Except JsErr (List String)
  | [] => .ok []
  | spec :: rest =>
      match resolveSync resolver fileName spec with
      | .error e => .error e
      | .ok dep =>
          match resolveAllSync resolver fileName rest with
          | .error e => .error e
          | .ok deps => .ok (dep :: deps)

/-- Classify the resolved imports in order; a thrown error aborts the
remaining iterations. -/
def syncLoop (classify : State → String → Option (State × Except JsErr (Option String))) :
    State → List String → Option (State × Except JsErr (List (Option String)))
  | st, [] => some (st, .ok [])
  | st, dep :: rest =>
      match classify st dep with
      | none => none
      | some (st1, .error e) => some (st1, .error e)
      | some (st1, .ok slot) =>
          match syncLoop classify st1 rest with
          | none => none
          | some (st', .error e) => some (st', .error e)
          | some (st', .ok slots) => some (st', .ok (slot :: slots))

/-- `State.checkDependenciesInternalSync`. -/
def checkDependenciesInternalSyncF (env : Env)
    (check : State → String → Option (State × Except JsErr (List String)))
    (st : State) (fileName : String) : Option (State × Except JsErr (List String)) :=
  match resolveAllSync env.resolver fileName (env.imports fileName) with
  | .error e => some (st, .error e)
  | .ok resolved =>
      match syncLoop (classifySyncDep env check fileName) st resolved with
      | none => none
      | some (st, .error e) => some (st, .error e)
      | some (st, .ok slots) => some (st, .ok (slots.filterMap id))

/-- `State.checkDependenciesSync` (the blocking entry point): clear the
unit's dependency list; when the unit is not yet in the store, read it
from disk (a read failure throws); then run the internal pass. -/
def checkDependenciesSyncF (env : Env) :
    Nat → State → String → Option (State × Except JsErr (List String))
  | 0, _, _ => none
  | fuel + 1, st, fileName =>
      let st := { st with dependencies := st.dependencies.clearDependencies fileName }
      match lookupA st.files fileName with
      | some _ =>
          checkDependenciesInternalSyncF env
            (fun st' f => checkDependenciesSyncF env fuel st' f) st fileName
      | none =>
          match env.fsRead fileName with
          | .error e => some (st, .error (.jsError e))
          | .ok text =>
              let st := { st with files := (updateFile st.files fileName text false).1 }
              checkDependenciesInternalSyncF env
                (fun st' f => checkDependenciesSyncF env fuel st' f) st fileName

/-! ## Chain applier (`DependencyManager.applyChain`)

The traversal state is `(dm, deps, appliedChains, appliedDeps)`: the
manager (reads can install empty entries), the caller's accumulator (its
`add` appends) and the two traversal-local sets, which the source mutates
in place and therefore shares across the recursion. -/

/-- The `forEach` body over a unit's dependency list. -/
def applyChainLoop
    (step : DependencyManager × List String × List String × List String → String →
      Option (DependencyManager × List String × List String × List String)) :
    DependencyManager × List String × List String × List String → List String →
      Option (DependencyManager × List String × List String × List String)
  | s, [] => some s
  | (dm, deps, appliedChains, appliedDeps), depFileName :: rest =>
      let da : List String × List String :=
        if depFileName ∈ appliedDeps then (deps, appliedDeps)
        else (deps ++ [depFileName], setAdd appliedDeps depFileName)
      if depFileName ∈ appliedChains then
        applyChainLoop step (dm, da.1, appliedChains, da.2) rest
      else
        match step (dm, da.1, appliedChains, da.2) depFileName with
        | none => none
        | some s' => applyChainLoop step s' rest

/-- `DependencyManager.applyChain`, fuel-indexed. -/
def applyChainF :
    Nat → DependencyManager → String → List String → List String → List String →
      Option (DependencyManager × List String × List String × List String)
  | 0, _, _, _, _, _ => none
  | fuel + 1, dm, fileName, deps, appliedChains, appliedDeps =>
      let dm := if hasKeyA dm.dependencies fileName then dm
                else dm.clearDependencies fileName
      let appliedChains := setAdd appliedChains fileName
      let dc : List String × List String :=
        if ".d.ts" ∈ appliedChains then (deps, appliedChains)
        else (deps ++ dm.knownTypeDeclarations, setAdd appliedChains ".d.ts")
      let g := dm.getDependencies fileName
      applyChainLoop
        (fun s dep => applyChainF fuel s.1 dep s.2.1 s.2.2.1 s.2.2.2)
        (g.1, dc.1, dc.2, appliedDeps) g.2

/-! ## Recompile-reason finder -/

/-- The `for` loop of `recompileReasonInternal` over a unit's direct
dependencies. -/
def recompileReasonLoop (changedFilesSet currentVisitedFiles : List String)
    (rec : DependencyManager → String → Option (DependencyManager × List String)) :
    DependencyManager → List String → Option (DependencyManager × List String)
  | dm, [] => some (dm, [])
  | dm, depFileName :: rest =>
      if depFileName ∈ changedFilesSet then some (dm, [depFileName])
      else if depFileName ∈ currentVisitedFiles then
        recompileReasonLoop changedFilesSet currentVisitedFiles rec dm rest
      else
        match rec dm depFileName with
        | none => none
        | some (dm', internal) =>
            if internal.length ≠ 0 then some (dm', depFileName :: internal)
            else recompileReasonLoop changedFilesSet currentVisitedFiles rec dm' rest

/-- `DependencyManager.recompileReasonInternal`, fuel-indexed.  The
visited set is copied per level (`objectAssign({}, visitedFiles)`), so it
is path-scoped. -/
def recompileReasonInternalF :
    Nat → DependencyManager → String → List String → List String →
      Option (DependencyManager × List String)
  | 0, _, _, _, _ => none
  | fuel + 1, dm, fileName, changedFilesSet, visitedFiles =>
      let g := dm.getDependencies fileName
      let currentVisitedFiles := setAdd visitedFiles fileName
      recompileReasonLoop changedFilesSet currentVisitedFiles
        (fun dm' dep => recompileReasonInternalF fuel dm' dep changedFilesSet currentVisitedFiles)
        g.1 g.2

/-- `DependencyManager.recompileReason`. -/
def recompileReason (fuel : Nat) (dm : DependencyManager) (fileName : String)
    (changedFiles : List String) : Option (DependencyManager × List String) :=
  let changedFilesSet := changedFiles.foldl setAdd []
  recompileReasonInternalF fuel dm fileName changedFilesSet []

/-! ## Compilation facade -/

/-- `RUNTIME.fileName`, the bundled webpack-runtime declaration unit. -/
def runtimeFileName : String := "runtime.d.ts"

/-- `State.invokeRuntime`: one-shot latch; the `getEmitOutput` call it
guards lives entirely in the external engine. -/
def invokeRuntime (st : State) : State :=
  if !st.runtimeRead then { st with runtimeRead := true } else st

/-- `State.applyDeps`: clear the caller's accumulator, add the unit
itself, then run the chain applier into it. -/
def applyDeps (fuel : Nat) (st : State) (fileName : String) :
    Option (State × List String) :=
  match applyChainF fuel st.dependencies fileName [fileName] [] [] with
  | none => none
  | some (dm, deps, _, _) => some ({ st with dependencies := dm }, deps)

/-- The diagnostics accumulation inside `emitAndCheck`: configuration
diagnostics, then the syntactic and semantic diagnostics of every unit in
the store, in key order. -/
def collectDiagnostics (env : Env) (st : State) : List String :=
  env.services.getCompilerOptionsDiagnostics ++
    (st.files.map Prod.fst).flatMap
      (fun f => env.services.getSyntacticDiagnostics f ++
        env.services.getSemanticDiagnostics f)

/-- `State.emitAndCheck`: throw a `TypeScriptCompilationError` when any
diagnostics exist; otherwise return the output unless emission was
skipped, in which case throw `Error("Emit skipped")`. -/
def emitAndCheck (env : Env) (st : State) (fileName : String) :
    Except JsErr EmitOutput :=
  let output := env.services.getEmitOutput fileName
  let diagnostics := collectDiagnostics env st
  if diagnostics.length ≠ 0 then .error (.compilationError diagnostics)
  else if !output.emitSkipped then .ok output
  else .error (.jsError "Emit skipped")

/-- `State.emitSync`.  `depsManager` is the caller's accumulator (modelled
by its contents).  Dependency checking runs *before* the `try`/`finally`,
so a thrown `ResolutionError` propagates without touching the
accumulator; otherwise `emitAndCheck`'s outcome is returned after the
`finally` has re-derived the accumulator via `applyDeps`. -/
def emitSync (env : Env) (fuel : Nat) (st : State) (fileName text : String)
    (depsManager : List String) :
    Option (State × List String × Except JsErr EmitOutput) :=
  let st := invokeRuntime st
  match checkDependenciesSyncF env fuel st fileName with
  | none => none
  | some (st, .error e) => some (st, depsManager, .error e)
  | some (st, .ok _) =>
      let result := emitAndCheck env st fileName
      match applyDeps fuel st fileName with
      | none => none
      | some (st, deps) => some (st, deps, result)

/-- `State.emitAsync`: the same pipeline with the accumulator re-derived
in a promise `.finally`, which also covers a rejection of the dependency
check itself. -/
def emitAsync (env : Env) (fuel : Nat) (st : State) (fileName text : String)
    (depsManager : List String) :
    Option (State × List String × Except JsErr EmitOutput) :=
  let st := invokeRuntime st
  match checkDependenciesF env fuel st fileName with
  | none => none
  | some (st, r) =>
      let result : Except JsErr EmitOutput :=
        match r with
        | .error e => .error e
        | .ok _ => emitAndCheck env st fileName
      match applyDeps fuel st fileName with
      | none => none
      | some (st, deps) => some (st, deps, result)

/-! ## Heap-explicit dependency map (array aliasing)

`DependencyManager.getDependencies` returns `this.dependencies[fileName].slice()`,
a fresh array.  To reason about that aliasing, this second rendering of the
same source code makes JS array references explicit: a heap is a list of
array contents, an entry of `dependencies` stores the index of its array,
and `.slice()` allocates a new index.  Mutating an array is `List.set` on
the heap at its index. -/

/-- `DependencyManager` with explicit array references. -/
structure DependencyManagerH where
  dependencies : List (String × Nat)
  knownTypeDeclarations : List String
  deriving Repr, DecidableEq

/-- Dereference an array. -/
def heapGet (h : List (List String)) (r : Nat) : List String :=
  h.getD r []

/-- `clearDependencies`: `this.dependencies[fileName] = []` allocates a
fresh empty array and stores its reference. -/
def clearDependenciesH (h : List (List String)) (dm : DependencyManagerH)
    (fileName : String) : List (List String) × DependencyManagerH :=
  (h ++ [[]], { dm with dependencies := setA dm.dependencies fileName h.length })

/-- `getDependencies`: ensure the entry exists, then return a reference to
a fresh `.slice()` copy of its array. -/
def getDependenciesH (h : List (List String)) (dm : DependencyManagerH)
    (fileName : String) : List (List String) × DependencyManagerH × Nat :=
  match lookupA dm.dependencies fileName with
  | some r => (h ++ [heapGet h r], dm, h.length)
  | none =>
      let p := clearDependenciesH h dm fileName
      (p.1 ++ [heapGet p.1 h.length], p.2, p.1.length)

/-- Well-formedness of a heap-explicit manager: every stored reference
points into the heap. -/
def WFH (h : List (List String)) (dm : DependencyManagerH) : Prop :=
  ∀ g r, (g, r) ∈ dm.dependencies → r < h.length

/-! ## Dependency-graph reachability (for the recompile-reason claims) -/

/-- The recorded direct dependencies of a unit; a missing entry reads as
the empty list (the engine normalises missing entries to empty ones, and
doing so changes no `depsOf` value). -/
def depsOf (dm : DependencyManager) (f : String) : List String :=
  (lookupA dm.dependencies f).getD []

/-- A dependency path: `Reaches dm f c` holds when some chain of recorded
direct-dependency edges leads from `f` to `c`. -/
inductive Reaches (dm : DependencyManager) : String → String → Prop
  | direct {f d : String} : d ∈ depsOf dm f → Reaches dm f d
  | step {f d c : String} : d ∈ depsOf dm f → Reaches dm d c → Reaches dm f c

/-! # Lemmas and theorems -/

/-! ## Association-list lemmas -/

theorem lookupA_setA_self {α : Type} (l : List (String × α)) (k : String) (v : α) :
    lookupA (setA l k v) k = some v := by
  induction l with
  | nil => simp [setA, lookupA]
  | cons p rest ih =>
      obtain ⟨k', v'⟩ := p
      by_cases h : k' = k <;> simp [setA, lookupA, h, ih]

theorem lookupA_setA_ne {α : Type} (l : List (String × α)) (k k' : String) (v : α)
    (h : k' ≠ k) : lookupA (setA l k v) k' = lookupA l k' := by
  have h' : ¬ k = k' := Ne.symm h
  induction l with
  | nil => simp [setA, lookupA, h']
  | cons p rest ih =>
      obtain ⟨k'', v''⟩ := p
      by_cases h1 : k'' = k
      · subst h1
        simp [setA, lookupA, h']
      · by_cases h2 : k'' = k' <;> simp [setA, lookupA, h1, h2, ih, h]

theorem setA_of_lookupA_none {α : Type} (l : List (String × α)) (k : String) (v : α)
    (h : lookupA l k = none) : setA l k v = l ++ [(k, v)] := by
  induction l with
  | nil => simp [setA]
  | cons p rest ih =>
      obtain ⟨k', v'⟩ := p
      by_cases h1 : k' = k
      · simp [lookupA, h1] at h
      · simp [setA, h1]
        exact ih (by simpa [lookupA, h1] using h)

theorem mem_setA {α : Type} (l : List (String × α)) (k g : String) (v w : α)
    (h : (g, w) ∈ setA l k v) : (g, w) ∈ l ∨ (g, w) = (k, v) := by
  induction l with
  | nil => simp [setA] at h; simp [h]
  | cons p rest ih =>
      obtain ⟨k', v'⟩ := p
      by_cases h1 : k' = k
      · simp [setA, h1] at h
        rcases h with h | h
        · right; simp [h]
        · left; simp [h]
      · simp [setA, h1] at h
        rcases h with h | h
        · left; simp [h]
        · rcases ih h with h2 | h2
          · left; simp [h2]
          · right; exact h2

/-! ## List `getD` helpers for the heap model -/

theorem getD_append_lt {α : Type} (l t : List α) (i : Nat) (d : α) (h : i < l.length) :
    (l ++ t).getD i d = l.getD i d := by
  induction l generalizing i with
  | nil => simp at h
  | cons a l ih =>
      cases i with
      | zero => simp [List.getD]
      | succ j =>
          simp only [List.cons_append]
          have := ih j (by simpa using Nat.lt_of_succ_lt_succ h)
          simpa [List.getD] using this

theorem getD_set_ne {α : Type} (l : List α) (i j : Nat) (v : α) (d : α) (h : j ≠ i) :
    (l.set i v).getD j d = l.getD j d := by
  induction l generalizing i j with
  | nil => simp
  | cons a l ih =>
      cases i with
      | zero =>
          cases j with
          | zero => exact absurd rfl h
          | succ j' => simp [List.getD]
      | succ i' =>
          cases j with
          | zero => simp [List.getD]
          | succ j' =>
              have := ih i' j' (fun hh => h (by simp [hh]))
              simpa [List.getD] using this

theorem getD_append_length {α : Type} (l : List α) (x : α) (d : α) :
    (l ++ [x]).getD l.length d = x := by
  induction l with
  | nil => simp [List.getD]
  | cons a l ih => simpa [List.getD] using ih

theorem lookupA_mem {α : Type} (l : List (String × α)) (k : String) (v : α)
    (h : lookupA l k = some v) : (k, v) ∈ l := by
  induction l with
  | nil => simp [lookupA] at h
  | cons p rest ih =>
      obtain ⟨k', v'⟩ := p
      by_cases h1 : k' = k
      · subst h1
        simp [lookupA] at h
        simp [h]
      · simp [lookupA, h1] at h
        simp [ih h]

/-! ## Claim C6 — cycle safety of the chain applier and reason finder -/

/-- C6: on the cyclic graph `A → B → A`, `applyChain` run on `A` (with
fuel 10; `none` would mean the budget was exhausted, i.e. the modelled
recursion did not come back) terminates with the accumulator holding each
of `A` and `B` exactly once, and `recompileReasonInternal` (run through
`recompileReason`, likewise fueled) terminates on the same graph. -/
theorem C6_cycle_safety :
    applyChainF 10 ⟨[("A", ["B"]), ("B", ["A"])], []⟩ "A" [] [] [] =
      some (⟨[("A", ["B"]), ("B", ["A"])], []⟩, ["B", "A"], ["B", ".d.ts", "A"], ["A", "B"]) ∧
    (["B", "A"].count "A" = 1 ∧ ["B", "A"].count "B" = 1) ∧
    recompileReason 10 ⟨[("A", ["B"]), ("B", ["A"])], []⟩ "A" [] =
      some (⟨[("A", ["B"]), ("B", ["A"])], []⟩, []) := by
  refine ⟨by decide, ⟨by decide, by decide⟩, by decide⟩

/-! ## Claim C3 — version bumping in `updateFile` -/

/-- C3 counterexample: `updateFile` with the default `checked = false`
increments the version even when the new text equals the stored text: on
the store `[("a.ts", {text := "x", version := 0})]`, updating `"a.ts"`
with the identical text `"x"` stores version 1 and reports a change. -/
theorem C3_counterexample_unchecked_update_increments :
    lookupA (updateFile [("a.ts", ⟨"x", 0⟩)] "a.ts" "x" false).1 "a.ts" =
      some ⟨"x", 1⟩ ∧
    (updateFile [("a.ts", ⟨"x", 0⟩)] "a.ts" "x" false).2 = true := by
  exact ⟨by decide, by decide⟩

/-- C3 amended: only a `checked = true` update does content comparison.
For a unit already stored, a `checked` update with identical text never
increments the version — the source stores version 0 (note: it resets a
larger stored version to 0 rather than leaving it) and reports no change —
and a subsequent update with different text stores exactly the stored
version plus 1 (here `0 + 1 = 1`) and reports a change.  With
`checked = false` every update of an existing unit increments, identical
text or not. -/
theorem C3_amended_checked_updates (files : List (String × File))
    (fileName text : String) (v : Nat)
    (hstore : lookupA files fileName = some ⟨text, v⟩) :
    (lookupA (updateFile files fileName text true).1 fileName = some ⟨text, 0⟩ ∧
      (updateFile files fileName text true).2 = false) ∧
    (∀ text2 checked2, text2 ≠ text →
      lookupA (updateFile (updateFile files fileName text true).1 fileName text2 checked2).1
          fileName = some ⟨text2, 1⟩ ∧
      (updateFile (updateFile files fileName text true).1 fileName text2 checked2).2 = true) ∧
    (∀ text1, lookupA (updateFile files fileName text1 false).1 fileName =
        some ⟨text1, v + 1⟩) := by
  refine ⟨?_, ?_, ?_⟩
  · simp [updateFile, hstore, lookupA_setA_self]
  · intro text2 checked2 hne
    have h1 : lookupA (updateFile files fileName text true).1 fileName = some ⟨text, 0⟩ := by
      simp [updateFile, hstore, lookupA_setA_self]
    cases checked2 <;> simp [updateFile, h1, hne, hstore, lookupA_setA_self]
  · intro text1
    simp [updateFile, hstore, lookupA_setA_self]

/-- C3 amended, witness: the amended theorem applied at the concrete store
`[("a.ts", {text := "x", version := 5})]`. -/
theorem C3_amended_checked_updates_witness :
    lookupA [("a.ts", (⟨"x", 5⟩ : File))] "a.ts" = some ⟨"x", 5⟩ ∧
    (lookupA (updateFile [("a.ts", ⟨"x", 5⟩)] "a.ts" "x" true).1 "a.ts" = some ⟨"x", 0⟩ ∧
      (updateFile [("a.ts", ⟨"x", 5⟩)] "a.ts" "x" true).2 = false) := by
  have h := C3_amended_checked_updates [("a.ts", ⟨"x", 5⟩)] "a.ts" "x" 5 (by decide)
  exact ⟨by decide, h.1⟩

/-! ## Claim C7 — outcome classification of `emitAndCheck` -/

/-- C7: `emitAndCheck` fails with a compilation error carrying exactly the
collected diagnostics (configuration diagnostics plus the syntactic and
semantic diagnostics of every stored unit) iff that collection is
non-empty; with no diagnostics it fails with the generic
`Error("Emit skipped")` iff the engine reported `emitSkipped`; and it
returns the engine's output iff no diagnostics exist and emission was not
skipped. -/
theorem C7_emitAndCheck_outcomes (env : Env) (st : State) (fileName : String) :
    (emitAndCheck env st fileName =
        .error (.compilationError (collectDiagnostics env st)) ↔
      collectDiagnostics env st ≠ []) ∧
    ((∃ d, emitAndCheck env st fileName = .error (.compilationError d)) ↔
      collectDiagnostics env st ≠ []) ∧
    (emitAndCheck env st fileName = .error (.jsError "Emit skipped") ↔
      (collectDiagnostics env st = [] ∧
        (env.services.getEmitOutput fileName).emitSkipped = true)) ∧
    (emitAndCheck env st fileName = .ok (env.services.getEmitOutput fileName) ↔
      (collectDiagnostics env st = [] ∧
        (env.services.getEmitOutput fileName).emitSkipped = false)) := by
  by_cases hd : collectDiagnostics env st = []
  · by_cases hs : (env.services.getEmitOutput fileName).emitSkipped = true
    · refine ⟨?_, ?_, ?_, ?_⟩ <;> simp [emitAndCheck, hd, hs]
    · have hs' : (env.services.getEmitOutput fileName).emitSkipped = false := by
        simpa using hs
      refine ⟨?_, ?_, ?_, ?_⟩ <;> simp [emitAndCheck, hd, hs']
  · have hlen : (collectDiagnostics env st).length ≠ 0 := by
      simpa [List.length_eq_zero] using hd
    refine ⟨?_, ?_, ?_, ?_⟩ <;> simp [emitAndCheck, hlen, hd]

/-! ## Claim C10 — `getDependencies` returns a fresh copy -/

/-- C10: in the heap-explicit model, `getDependencies` hands back a fresh
array: writing any contents over the returned reference leaves the
contents of every entry stored in the manager unchanged; the copy holds
exactly the stored contents of the queried entry; querying an unknown key
installs exactly one empty entry for it (and no edges); and querying a
known key leaves the manager unchanged. -/
theorem C10_getDependencies_fresh_copy (h : List (List String))
    (dm : DependencyManagerH) (fileName : String) (hwf : WFH h dm) :
    (∀ (v : List String) (x : String) (r : Nat),
        (x, r) ∈ (getDependenciesH h dm fileName).2.1.dependencies →
        heapGet ((getDependenciesH h dm fileName).1.set
            (getDependenciesH h dm fileName).2.2 v) r =
          heapGet (getDependenciesH h dm fileName).1 r) ∧
    (∃ rf, lookupA (getDependenciesH h dm fileName).2.1.dependencies fileName = some rf ∧
        heapGet (getDependenciesH h dm fileName).1 (getDependenciesH h dm fileName).2.2 =
          heapGet (getDependenciesH h dm fileName).1 rf) ∧
    (lookupA dm.dependencies fileName = none →
        (getDependenciesH h dm fileName).2.1.dependencies =
            dm.dependencies ++ [(fileName, h.length)] ∧
        heapGet (getDependenciesH h dm fileName).1 h.length = []) ∧
    (∀ r0, lookupA dm.dependencies fileName = some r0 →
        (getDependenciesH h dm fileName).2.1 = dm) := by
  rcases hlk : lookupA dm.dependencies fileName with _ | r0
  · -- unknown key: clear installs a fresh empty array, then slice copies it
    have hset : setA dm.dependencies fileName h.length =
        dm.dependencies ++ [(fileName, h.length)] :=
      setA_of_lookupA_none _ _ _ hlk
    refine ⟨?_, ?_, ?_, ?_⟩
    · intro v x r hmem
      simp only [getDependenciesH, clearDependenciesH, hlk] at hmem ⊢
      have hr : r < h.length + 1 := by
        rcases mem_setA _ _ _ _ _ hmem with hin | heq
        · exact Nat.lt_succ_of_lt (hwf x r hin)
        · simp at heq
          omega
      have hne : r ≠ (h ++ [[]]).length := by
        simp
        omega
      exact getD_set_ne _ _ _ _ _ hne
    · refine ⟨h.length, ?_, ?_⟩
      · simp only [getDependenciesH, clearDependenciesH, hlk]
        exact lookupA_setA_self _ _ _
      · simp only [getDependenciesH, clearDependenciesH, hlk, heapGet]
        have h1 : ((h ++ [[]]) ++ [(h ++ [[]]).getD h.length []]).getD
            (h ++ [[]]).length [] = (h ++ [[]]).getD h.length [] :=
          getD_append_length _ _ _
        have h2 : (h ++ [[]]).getD h.length [] = ([] : List String) := by
          simpa using getD_append_length h ([] : List String) []
        have h3 : ((h ++ [[]]) ++ [(h ++ [[]]).getD h.length []]).getD h.length [] =
            (h ++ [[]]).getD h.length [] :=
          getD_append_lt _ _ _ _ (by simp)
        simp only [heapGet] at h1 h3 ⊢
        rw [h1, h3]
    · intro _
      constructor
      · simp only [getDependenciesH, clearDependenciesH, hlk]
        exact hset
      · simp only [getDependenciesH, clearDependenciesH, hlk, heapGet]
        have h2 : (h ++ [[]]).getD h.length [] = ([] : List String) := by
          simpa using getD_append_length h ([] : List String) []
        have h3 : ((h ++ [[]]) ++ [(h ++ [[]]).getD h.length []]).getD h.length [] =
            (h ++ [[]]).getD h.length [] :=
          getD_append_lt _ _ _ _ (by simp)
        rw [h3, h2]
    · intro r0 habs
      simp at habs
  · -- known key: the manager is untouched and a copy of entry r0 is handed out
    refine ⟨?_, ?_, ?_, ?_⟩
    · intro v x r hmem
      simp only [getDependenciesH, hlk] at hmem ⊢
      have hr : r < h.length := hwf x r hmem
      have hne : r ≠ h.length := Nat.ne_of_lt hr
      exact getD_set_ne _ _ _ _ _ hne
    · refine ⟨r0, ?_, ?_⟩
      · simp [getDependenciesH, hlk]
      · simp only [getDependenciesH, hlk, heapGet]
        have hr0 : r0 < h.length := hwf fileName r0 (lookupA_mem _ _ _ hlk)
        have h1 : (h ++ [heapGet h r0]).getD h.length [] = heapGet h r0 :=
          getD_append_length _ _ _
        have h2 : (h ++ [heapGet h r0]).getD r0 [] = h.getD r0 [] :=
          getD_append_lt _ _ _ _ hr0
        simp only [heapGet] at h1 h2 ⊢
        rw [h1, h2]
    · intro habs
      simp at habs
    · intro r1 _
      simp [getDependenciesH, hlk]

/-- C10 witness: the freshness theorem applied at the concrete heap
`[["z"]]` and manager whose only entry is `("A", 0)`, queried at the known
key `"A"`. -/
theorem C10_getDependencies_fresh_copy_witness :
    WFH [["z"]] ⟨[("A", 0)], []⟩ ∧
    (∀ r0, lookupA (⟨[("A", 0)], []⟩ : DependencyManagerH).dependencies "A" = some r0 →
      (getDependenciesH [["z"]] ⟨[("A", 0)], []⟩ "A").2.1 = ⟨[("A", 0)], []⟩) := by
  have hwf : WFH [["z"]] ⟨[("A", 0)], []⟩ := by
    intro g r hm
    simp at hm
    obtain ⟨-, rfl⟩ := hm
    decide
  exact ⟨hwf, (C10_getDependencies_fresh_copy [["z"]] ⟨[("A", 0)], []⟩ "A" hwf).2.2.2⟩

/-! ## Claim C5 — extension fallback order in specifier resolution -/

/-- A path ending in the literal `.d.ts` has extension `.ts` in the
`path.extname` model (so the resolve functions take their has-extension
branch on it). -/
theorem extname_of_endsWithDdTs (s : String) (h : endsWithDdTs s = true) :
    extname s = ".ts" := by
  unfold endsWithDdTs at h
  split at h
  case _ rest heq =>
    unfold extname revBasenameChars
    rw [heq]
    simp [List.takeWhile, extRev]
  case _ => simp at h

/-- C5: for a specifier without a file extension, the resolver is invoked
with the `.ts`-suffixed specifier first; the `.d.ts`-suffixed specifier is
tried only when that fails; the raw specifier only when both fail (in
particular a successful `.ts` attempt means the resolver never sees the
`.d.ts` variant).  A specifier already ending in `.d.ts` is returned as-is
with no resolver invocation at all.  Both resolution modes are covered via
their call-instrumented renderings. -/
theorem C5_extension_fallback_order
    (resolver : String → String → Except String String) (fileName defPath : String) :
    (extname defPath = "" →
      (∀ r, resolver (dirname fileName) (defPath ++ ".ts") = .ok r →
        resolveSyncCalls resolver fileName defPath =
          (.ok r, [(dirname fileName, defPath ++ ".ts")]) ∧
        resolveAsyncCalls resolver fileName defPath =
          (.ok r, [(dirname fileName, defPath ++ ".ts")])) ∧
      (∀ e r, resolver (dirname fileName) (defPath ++ ".ts") = .error e →
        resolver (dirname fileName) (defPath ++ ".d.ts") = .ok r →
        resolveSyncCalls resolver fileName defPath =
          (.ok r, [(dirname fileName, defPath ++ ".ts"),
            (dirname fileName, defPath ++ ".d.ts")]) ∧
        resolveAsyncCalls resolver fileName defPath =
          (.ok r, [(dirname fileName, defPath ++ ".ts"),
            (dirname fileName, defPath ++ ".d.ts")])) ∧
      (∀ e1 e2, resolver (dirname fileName) (defPath ++ ".ts") = .error e1 →
        resolver (dirname fileName) (defPath ++ ".d.ts") = .error e2 →
        (resolveSyncCalls resolver fileName defPath).2 =
          [(dirname fileName, defPath ++ ".ts"), (dirname fileName, defPath ++ ".d.ts"),
            (dirname fileName, defPath)] ∧
        (resolveAsyncCalls resolver fileName defPath).2 =
          [(dirname fileName, defPath ++ ".ts"), (dirname fileName, defPath ++ ".d.ts"),
            (dirname fileName, defPath)])) ∧
    (endsWithDdTs defPath = true →
      resolveSyncCalls resolver fileName defPath = (.ok defPath, []) ∧
      resolveAsyncCalls resolver fileName defPath = (.ok defPath, [])) := by
  constructor
  · intro hext
    have hlen : (extname defPath).length = 0 := by rw [hext]; rfl
    refine ⟨?_, ?_, ?_⟩
    · intro r hok
      constructor <;> simp [resolveSyncCalls, resolveAsyncCalls, hlen, hok]
    · intro e r hts hdts
      constructor <;> simp [resolveSyncCalls, resolveAsyncCalls, hlen, hts, hdts]
    · intro e1 e2 hts hdts
      constructor <;>
        rcases hraw : resolver (dirname fileName) defPath with e3 | r3 <;>
          simp [resolveSyncCalls, resolveAsyncCalls, hlen, hts, hdts, hraw]
  · intro hdd
    have hext : extname defPath = ".ts" := extname_of_endsWithDdTs defPath hdd
    have hlen : (extname defPath).length ≠ 0 := by rw [hext]; decide
    constructor <;> simp [resolveSyncCalls, resolveAsyncCalls, hlen, hdd]

/-- C5 witness: the fallback theorem applied to the extension-less
specifier `"foo"` with a resolver that knows only `"foo.ts"` (the trace is
the single `.ts` attempt), and to the specifier `"types.d.ts"` (empty
trace, returned as-is). -/
theorem C5_extension_fallback_order_witness :
    extname "foo" = "" ∧ endsWithDdTs "types.d.ts" = true ∧
    resolveSyncCalls (fun _ d => if d = "foo.ts" then .ok "/r/foo.ts" else .error "no")
      "/r/a.ts" "foo" = (.ok "/r/foo.ts", [("/r", "foo.ts")]) ∧
    resolveSyncCalls (fun _ d => if d = "foo.ts" then .ok "/r/foo.ts" else .error "no")
      "/r/a.ts" "types.d.ts" = (.ok "types.d.ts", []) := by
  refine ⟨by decide, by decide, ?_, ?_⟩
  · exact (((C5_extension_fallback_order
      (fun _ d => if d = "foo.ts" then .ok "/r/foo.ts" else .error "no")
      "/r/a.ts" "foo").1 (by decide)).1 "/r/foo.ts" (by rfl)).1
  · exact ((C5_extension_fallback_order
      (fun _ d => if d = "foo.ts" then .ok "/r/foo.ts" else .error "no")
      "/r/a.ts" "types.d.ts").2 (by decide)).1

/-! ## Claim C4 — validity-flag lifecycle -/

theorem isFileValid_markFileValid_self (v : List (String × Bool)) (d : String) :
    isFileValid (markFileValid v d) d = true := by
  simp [isFileValid, markFileValid, lookupA_setA_self]

theorem isFileValid_markFileValid_mono (v : List (String × Bool)) (d u : String)
    (h : isFileValid v u = true) : isFileValid (markFileValid v d) u = true := by
  by_cases hu : u = d
  · subst hu
    exact isFileValid_markFileValid_self v u
  · simpa [isFileValid, markFileValid, lookupA_setA_ne _ _ _ _ hu] using h

theorem isFileValid_markFileInvalid_self (v : List (String × Bool)) (d : String) :
    isFileValid (markFileInvalid v d) d = false := by
  simp [isFileValid, markFileInvalid, lookupA_setA_self]

theorem isFileValid_markFileInvalid_ne (v : List (String × Bool)) (d u : String)
    (hu : u ≠ d) : isFileValid (markFileInvalid v d) u = isFileValid v u := by
  simp [isFileValid, markFileInvalid, lookupA_setA_ne _ _ _ _ hu]

/-- The concurrent classification step never clears a flag that was
already set when the step began (the only `markFileInvalid` it performs
targets a unit whose flag was unset at that point), provided the
recursive continuation has the same property. -/
theorem classifyAsyncDep_valid_mono (env : Env)
    (check : State → String → Option (State × Except JsErr (List String)))
    (hcheck : ∀ st2 f2 st3 r3, check st2 f2 = some (st3, r3) →
      ∀ u, isFileValid st2.validFiles u = true → isFileValid st3.validFiles u = true)
    (fileName : String) (st : State) (depFileName : String)
    (st1 : State) (slot : Except JsErr (Option String))
    (h : classifyAsyncDep env check fileName st depFileName = some (st1, slot)) :
    ∀ u, isFileValid st.validFiles u = true → isFileValid st1.validFiles u = true := by
  intro u hu
  unfold classifyAsyncDep at h
  by_cases h1 : isTypeDeclarationName depFileName = true
  · rw [if_pos h1] at h
    by_cases h2 : st.dependencies.hasTypeDeclaration depFileName = true
    · rw [if_pos h2] at h
      cases h
      exact hu
    · rw [if_neg h2] at h
      dsimp only at h
      rcases hc : check { st with dependencies := st.dependencies.addTypeDeclaration depFileName } depFileName with _ | p
      · rw [hc] at h
        cases h
      · rw [hc] at h
        obtain ⟨st2, r2⟩ := p
        have hm := hcheck _ _ _ _ hc u hu
        cases r2 <;> (dsimp only at h; cases h; exact hm)
  · rw [if_neg h1] at h
    by_cases h2 : isRequiredModuleName depFileName = true
    · rw [if_pos h2] at h
      cases h
      exact hu
    · rw [if_neg h2] at h
      by_cases h3 : isFileValid st.validFiles depFileName = true
      · rw [if_pos h3] at h
        cases h
        exact hu
      · rw [if_neg h3] at h
        dsimp only at h
        rcases hc : check { st with
            dependencies := st.dependencies.addDependency fileName depFileName,
            validFiles := markFileValid st.validFiles depFileName } depFileName with _ | p
        · rw [hc] at h
          cases h
        · rw [hc] at h
          obtain ⟨st2, r2⟩ := p
          have hm := hcheck _ _ _ _ hc u
            (by simpa using isFileValid_markFileValid_mono st.validFiles depFileName u hu)
          cases r2 with
          | error e =>
              dsimp only at h
              by_cases h4 : e.isResolutionError = true
              · rw [if_pos h4] at h
                cases h
                have hud : u ≠ depFileName := by
                  intro hud
                  subst hud
                  rw [hu] at h3
                  exact h3 rfl
                simpa [isFileValid_markFileInvalid_ne st2.validFiles depFileName u hud]
                  using hm
              · rw [if_neg h4] at h
                cases h
                exact hm
          | ok v =>
              dsimp only at h
              cases h
              exact hm

/-- The `Promise.all` chain loop preserves already-set validity flags,
provided the classification step does. -/
theorem asyncLoop_valid_mono
    (classify : State → String → Option (State × Except JsErr (Option String)))
    (hstep : ∀ st2 d st3 slot, classify st2 d = some (st3, slot) →
      ∀ u, isFileValid st2.validFiles u = true → isFileValid st3.validFiles u = true) :
    ∀ (L : List (Except JsErr String)) (st st' : State)
      (slots : List (Except JsErr (Option String))),
      asyncLoop classify st L = some (st', slots) →
      ∀ u, isFileValid st.validFiles u = true → isFileValid st'.validFiles u = true := by
  intro L
  induction L with
  | nil =>
      intro st st' slots h u hu
      cases h
      exact hu
  | cons a rest ih =>
      intro st st' slots h u hu
      cases a with
      | error e =>
          unfold asyncLoop at h
          rcases hrest : asyncLoop classify st rest with _ | p
          · rw [hrest] at h
            cases h
          · rw [hrest] at h
            obtain ⟨st2, slots2⟩ := p
            dsimp only at h
            simp only [Option.some.injEq, Prod.mk.injEq] at h
            obtain ⟨h4, -⟩ := h
            subst h4
            exact ih st st2 slots2 hrest u hu
      | ok dep =>
          unfold asyncLoop at h
          rcases hcl : classify st dep with _ | p
          · rw [hcl] at h
            cases h
          · rw [hcl] at h
            obtain ⟨st2, slot⟩ := p
            dsimp only at h
            rcases hrest : asyncLoop classify st2 rest with _ | q
            · rw [hrest] at h
              cases h
            · rw [hrest] at h
              obtain ⟨st3, slots3⟩ := q
              dsimp only at h
              simp only [Option.some.injEq, Prod.mk.injEq] at h
              obtain ⟨h4, -⟩ := h
              subst h4
              exact ih st2 st3 slots3 hrest u (hstep st dep st2 slot hcl u hu)

/-- A concurrent pass never clears a validity flag that was set before it
began: `markFileInvalid` only follows a failed resolution of a unit whose
flag was set by this very pass. -/
theorem checkDependenciesF_valid_mono (env : Env) :
    ∀ (fuel : Nat) (st : State) (fileName : String) (st' : State)
      (r : Except JsErr (List String)),
      checkDependenciesF env fuel st fileName = some (st', r) →
      ∀ u, isFileValid st.validFiles u = true → isFileValid st'.validFiles u = true := by
  intro fuel
  induction fuel with
  | zero =>
      intro st fileName st' r h
      cases h
  | succ n ih =>
      intro st fileName st' r h u hu
      unfold checkDependenciesF at h
      dsimp only at h
      have hint : ∀ (stm : State),
          stm.validFiles = st.validFiles →
          checkDependenciesInternalAsyncF env
            (fun st2 f2 => checkDependenciesF env n st2 f2) stm fileName = some (st', r) →
          isFileValid st'.validFiles u = true := by
        intro stm hvm hi
        unfold checkDependenciesInternalAsyncF at hi
        dsimp only at hi
        rcases hl : asyncLoop
            (classifyAsyncDep env (fun st2 f2 => checkDependenciesF env n st2 f2) fileName)
            stm ((env.imports fileName).map (resolveAsync env.resolver fileName)) with _ | p
        · rw [hl] at hi
          cases hi
        · rw [hl] at hi
          obtain ⟨st2, slots⟩ := p
          have hmono := asyncLoop_valid_mono _
            (fun sa d sb slot hcl => classifyAsyncDep_valid_mono env _
              (fun sc f2 sd r3 hck => ih sc f2 sd r3 hck) fileName sa d sb slot hcl)
            _ stm st2 slots hl u (by rw [hvm]; exact hu)
          dsimp only at hi
          rcases hfr : firstRejection slots with _ | e
          · rw [hfr] at hi
            dsimp only at hi
            simp only [Option.some.injEq, Prod.mk.injEq] at hi
            obtain ⟨h4, -⟩ := hi
            subst h4
            exact hmono
          · rw [hfr] at hi
            dsimp only at hi
            simp only [Option.some.injEq, Prod.mk.injEq] at hi
            obtain ⟨h4, -⟩ := hi
            subst h4
            exact hmono
      rcases hf : lookupA st.files fileName with _ | fl
      · rw [hf] at h
        dsimp only at h
        exact hint { st with dependencies := st.dependencies.clearDependencies fileName }
          rfl h
      · rw [hf] at h
        dsimp only at h
        rcases hread : env.fsRead fileName with e | text
        · rw [hread] at h
          dsimp only at h
          simp only [Option.some.injEq, Prod.mk.injEq] at h
          obtain ⟨h4, -⟩ := h
          subst h4
          simpa using hu
        · rw [hread] at h
          dsimp only at h
          exact hint { st with
              files := (updateFile st.files fileName text false).1,
              dependencies := st.dependencies.clearDependencies fileName }
            rfl h

/-- The sequential classification step, after recursing into a unit whose
flag was unset, always leaves that flag unset again (the `finally`),
whether the recursion succeeded or failed. -/
theorem classifySyncDep_always_resets (env : Env)
    (check : State → String → Option (State × Except JsErr (List String)))
    (fileName : String) (st : State) (depFileName : String)
    (st' : State) (s : Except JsErr (Option String))
    (hd : isTypeDeclarationName depFileName = false)
    (hj : isRequiredModuleName depFileName = false)
    (hv : isFileValid st.validFiles depFileName = false)
    (h : classifySyncDep env check fileName st depFileName = some (st', s)) :
    isFileValid st'.validFiles depFileName = false := by
  unfold classifySyncDep at h
  rw [if_neg (by simp [hd]), if_neg (by simp [hj]), if_neg (by simp [hv])] at h
  dsimp only at h
  rcases hc : check { st with
      dependencies := st.dependencies.addDependency fileName depFileName,
      validFiles := markFileValid st.validFiles depFileName } depFileName with _ | p
  · rw [hc] at h
    cases h
  · rw [hc] at h
    obtain ⟨st1, r⟩ := p
    cases r <;> (dsimp only at h; cases h; exact isFileValid_markFileInvalid_self _ _)

/-- The concurrent classification step marks an unset unit and, when the
recursive check (of the engine itself) succeeds, leaves the flag set. -/
theorem classifyAsyncDep_success_keeps_valid (env : Env) (fuel : Nat)
    (fileName : String) (st : State) (depFileName : String)
    (st' : State) (s : Option String)
    (hd : isTypeDeclarationName depFileName = false)
    (hj : isRequiredModuleName depFileName = false)
    (h : classifyAsyncDep env (fun st2 f2 => checkDependenciesF env fuel st2 f2)
      fileName st depFileName = some (st', .ok s)) :
    isFileValid st'.validFiles depFileName = true := by
  unfold classifyAsyncDep at h
  rw [if_neg (by simp [hd]), if_neg (by simp [hj])] at h
  by_cases hv : isFileValid st.validFiles depFileName = true
  · rw [if_pos hv] at h
    cases h
    exact hv
  · rw [if_neg hv] at h
    dsimp only at h
    rcases hc : checkDependenciesF env fuel { st with
        dependencies := st.dependencies.addDependency fileName depFileName,
        validFiles := markFileValid st.validFiles depFileName } depFileName with _ | p
    · rw [hc] at h
      cases h
    · rw [hc] at h
      obtain ⟨st1, r⟩ := p
      cases r with
      | error e =>
          dsimp only at h
          by_cases h4 : e.isResolutionError = true
          · rw [if_pos h4] at h
            cases h
          · rw [if_neg h4] at h
            cases h
      | ok v =>
          dsimp only at h
          simp only [Option.some.injEq, Prod.mk.injEq] at h
          obtain ⟨h5, -⟩ := h
          subst h5
          exact checkDependenciesF_valid_mono env fuel _ depFileName st1 (.ok v) hc
            depFileName (isFileValid_markFileValid_self _ _)

/-- The concurrent classification step clears the flag of the unit it
marked when that unit's own resolution fails with a `ResolutionError`. -/
theorem classifyAsyncDep_failure_resets (env : Env)
    (check : State → String → Option (State × Except JsErr (List String)))
    (fileName : String) (st : State) (depFileName : String)
    (st' : State) (e : JsErr)
    (hd : isTypeDeclarationName depFileName = false)
    (hj : isRequiredModuleName depFileName = false)
    (hv : isFileValid st.validFiles depFileName = false)
    (hres : e.isResolutionError = true)
    (h : classifyAsyncDep env check fileName st depFileName = some (st', .error e)) :
    isFileValid st'.validFiles depFileName = false := by
  unfold classifyAsyncDep at h
  rw [if_neg (by simp [hd]), if_neg (by simp [hj]), if_neg (by simp [hv])] at h
  dsimp only at h
  rcases hc : check { st with
      dependencies := st.dependencies.addDependency fileName depFileName,
      validFiles := markFileValid st.validFiles depFileName } depFileName with _ | p
  · rw [hc] at h
    cases h
  · rw [hc] at h
    obtain ⟨st1, r⟩ := p
    cases r with
    | error e2 =>
        dsimp only at h
        by_cases h4 : e2.isResolutionError = true
        · rw [if_pos h4] at h
          cases h
          exact isFileValid_markFileInvalid_self _ _
        · rw [if_neg h4] at h
          cases h
          rw [hres] at h4
          exact absurd rfl h4
    | ok v =>
        dsimp only at h
        cases h

/-- C4 counterexample: in the sequential mode a successfully resolved
unit's validity flag does *not* remain set.  With the source graph
`A.ts → [B.ts]` (and `B.ts` import-free) and an always-succeeding
resolver, the whole pass succeeds, yet afterwards `B.ts` is flagged
`false` — the `finally` of `checkDependenciesInternalSync` resets it even
on success. -/
theorem C4_counterexample_sync_resets_on_success :
    (checkDependenciesSyncF
      ⟨fun _ d => .ok d,
        fun f => if f = "A.ts" then ["B.ts"] else [],
        fun _ => .ok "",
        ⟨fun _ => ⟨false, []⟩, [], fun _ => [], fun _ => []⟩⟩
      5 ⟨[], ⟨[], []⟩, [], false⟩ "A.ts").map
        (fun p => (p.1.validFiles, p.2.toOption.isSome)) =
      some ([("B.ts", false)], true) := by
  decide

/-- C4 amended: the validity flag is set when a unit enters resolution in
either mode; in the *concurrent* mode it is cleared only when that unit's
own resolution fails with a resolution error — a concurrent pass never
clears a flag that was already set when it started, and a unit whose
recursive check succeeds ends with its flag still set; in the
*sequential* mode the flag is always cleared again when the unit's
recursive resolution completes, whether it succeeded or failed. -/
theorem C4_amended_validity_lifecycle :
    (∀ (env : Env) (fuel : Nat) (st : State) (fileName : String) (st' : State)
        (r : Except JsErr (List String)),
      checkDependenciesF env fuel st fileName = some (st', r) →
      ∀ u, isFileValid st.validFiles u = true → isFileValid st'.validFiles u = true) ∧
    (∀ (env : Env) (fuel : Nat) (fileName : String) (st : State) (depFileName : String)
        (st' : State) (s : Option String),
      isTypeDeclarationName depFileName = false →
      isRequiredModuleName depFileName = false →
      classifyAsyncDep env (fun st2 f2 => checkDependenciesF env fuel st2 f2)
        fileName st depFileName = some (st', .ok s) →
      isFileValid st'.validFiles depFileName = true) ∧
    (∀ (env : Env) (check : State → String → Option (State × Except JsErr (List String)))
        (fileName : String) (st : State) (depFileName : String) (st' : State) (e : JsErr),
      isTypeDeclarationName depFileName = false →
      isRequiredModuleName depFileName = false →
      isFileValid st.validFiles depFileName = false →
      e.isResolutionError = true →
      classifyAsyncDep env check fileName st depFileName = some (st', .error e) →
      isFileValid st'.validFiles depFileName = false) ∧
    (∀ (env : Env) (check : State → String → Option (State × Except JsErr (List String)))
        (fileName : String) (st : State) (depFileName : String) (st' : State)
        (s : Except JsErr (Option String)),
      isTypeDeclarationName depFileName = false →
      isRequiredModuleName depFileName = false →
      isFileValid st.validFiles depFileName = false →
      classifySyncDep env check fileName st depFileName = some (st', s) →
      isFileValid st'.validFiles depFileName = false) := by
  refine ⟨?_, ?_, ?_, ?_⟩
  · exact fun env fuel st fileName st' r h =>
      checkDependenciesF_valid_mono env fuel st fileName st' r h
  · exact fun env fuel fileName st depFileName st' s hd hj h =>
      classifyAsyncDep_success_keeps_valid env fuel fileName st depFileName st' s hd hj h
  · exact fun env check fileName st depFileName st' e hd hj hv hres h =>
      classifyAsyncDep_failure_resets env check fileName st depFileName st' e hd hj hv hres h
  · exact fun env check fileName st depFileName st' s hd hj hv h =>
      classifySyncDep_always_resets env check fileName st depFileName st' s hd hj hv h

/-- C4 witness: the amended theorem's sequential-reset part applied to a
concrete step (the classification of `"B.ts"` from `"A.ts"` with an
import-free continuation), and its concurrent success part applied to the
analogous concurrent step. -/
theorem C4_amended_validity_lifecycle_witness :
    (isTypeDeclarationName "B.ts" = false ∧ isRequiredModuleName "B.ts" = false ∧
      isFileValid ([] : List (String × Bool)) "B.ts" = false) ∧
    (∀ st' s, classifySyncDep
        ⟨fun _ d => .ok d, fun _ => [], fun _ => .ok "",
          ⟨fun _ => ⟨false, []⟩, [], fun _ => [], fun _ => []⟩⟩
        (fun st2 f2 => checkDependenciesSyncF
          ⟨fun _ d => .ok d, fun _ => [], fun _ => .ok "",
            ⟨fun _ => ⟨false, []⟩, [], fun _ => [], fun _ => []⟩⟩ 3 st2 f2)
        "A.ts" ⟨[], ⟨[], []⟩, [], false⟩ "B.ts" = some (st', s) →
      isFileValid st'.validFiles "B.ts" = false) := by
  refine ⟨⟨by decide, by decide, by decide⟩, ?_⟩
  intro st' s h
  exact C4_amended_validity_lifecycle.2.2.2 _ _ "A.ts" ⟨[], ⟨[], []⟩, [], false⟩ "B.ts"
    st' s (by decide) (by decide) (by decide) h

/-! ## Claim C1 — mode equivalence of the two resolution engines -/

theorem setA_self_value {α : Type} (l : List (String × α)) (k : String) (v : α)
    (h : lookupA l k = some v) : setA l k v = l := by
  induction l with
  | nil => simp [lookupA] at h
  | cons p rest ih =>
      obtain ⟨k', v'⟩ := p
      by_cases h1 : k' = k
      · subst h1
        simp [lookupA] at h
        simp [setA, h]
      · simp [lookupA, h1] at h
        simp [setA, h1, ih h]

theorem isFileValid_markFileValid_ne (v : List (String × Bool)) (d u : String)
    (hu : u ≠ d) : isFileValid (markFileValid v d) u = isFileValid v u := by
  simp [isFileValid, markFileValid, lookupA_setA_ne _ _ _ _ hu]

/-- Under the eager promise interpretation the two resolve functions
compute the same results. -/
theorem resolveAsync_eq_resolveSync (resolver : String → String → Except String String)
    (fileName defPath : String) :
    resolveAsync resolver fileName defPath = resolveSync resolver fileName defPath := rfl

theorem addDependency_knownTypeDeclarations (dm : DependencyManager) (f d : String) :
    (dm.addDependency f d).knownTypeDeclarations = dm.knownTypeDeclarations := by
  unfold DependencyManager.addDependency
  by_cases h : hasKeyA dm.dependencies f = true <;>
    simp [h, DependencyManager.clearDependencies]

theorem lookupA_addDependency_ne (dm : DependencyManager) (f d u : String)
    (hu : u ≠ f) :
    lookupA (dm.addDependency f d).dependencies u = lookupA dm.dependencies u := by
  unfold DependencyManager.addDependency
  by_cases h : hasKeyA dm.dependencies f = true
  · simp only [if_pos h]
    exact lookupA_setA_ne _ _ _ _ hu
  · simp only [if_neg h, DependencyManager.clearDependencies]
    rw [lookupA_setA_ne _ _ _ _ hu, lookupA_setA_ne _ _ _ _ hu]

/-- A leaf unit (no imports) is fully checked by the concurrent engine in
one wrapper step: its entry is cleared, its text possibly re-read, and the
pass succeeds. -/
theorem leaf_check_async (env : Env) (k : Nat) (dep : String)
    (himp : env.imports dep = [])
    (hfs : ∀ p, ∃ t, env.fsRead p = .ok t) (st : State) :
    ∃ files', checkDependenciesF env (k + 1) st dep =
      some ({ st with files := files', dependencies := st.dependencies.clearDependencies dep }, .ok []) := by
  unfold checkDependenciesF
  dsimp only
  rcases hf : lookupA st.files dep with _ | fl
  · refine ⟨st.files, ?_⟩
    simp [checkDependenciesInternalAsyncF, himp, asyncLoop, firstRejection]
  · obtain ⟨t, hr⟩ := hfs dep
    refine ⟨(updateFile st.files dep t false).1, ?_⟩
    rw [hr]
    simp [checkDependenciesInternalAsyncF, himp, asyncLoop, firstRejection]

/-- A leaf unit is fully checked by the sequential engine in one wrapper
step as well. -/
theorem leaf_check_sync (env : Env) (k : Nat) (dep : String)
    (himp : env.imports dep = [])
    (hfs : ∀ p, ∃ t, env.fsRead p = .ok t) (st : State) :
    ∃ files', checkDependenciesSyncF env (k + 1) st dep =
      some ({ st with files := files', dependencies := st.dependencies.clearDependencies dep }, .ok []) := by
  unfold checkDependenciesSyncF
  dsimp only
  rcases hf : lookupA st.files dep with _ | fl
  · obtain ⟨t, hr⟩ := hfs dep
    refine ⟨(updateFile st.files dep t false).1, ?_⟩
    rw [hr]
    simp [checkDependenciesInternalSyncF, himp, resolveAllSync, syncLoop]
  · refine ⟨st.files, ?_⟩
    simp [checkDependenciesInternalSyncF, himp, resolveAllSync, syncLoop]

theorem classifyAsyncDep_js_eq (env : Env)
    (check : State → String → Option (State × Except JsErr (List String)))
    (fileName : String) (st : State) (dep : String)
    (hd : isTypeDeclarationName dep = false) (hj : isRequiredModuleName dep = true) :
    classifyAsyncDep env check fileName st dep = some (st, .ok none) := by
  simp [classifyAsyncDep, hd, hj]

theorem classifySyncDep_js_eq (env : Env)
    (check : State → String → Option (State × Except JsErr (List String)))
    (fileName : String) (st : State) (dep : String)
    (hd : isTypeDeclarationName dep = false) (hj : isRequiredModuleName dep = true) :
    classifySyncDep env check fileName st dep = some (st, .ok none) := by
  simp [classifySyncDep, hd, hj]

theorem classifyAsyncDep_valid_eq (env : Env)
    (check : State → String → Option (State × Except JsErr (List String)))
    (fileName : String) (st : State) (dep : String)
    (hd : isTypeDeclarationName dep = false) (hj : isRequiredModuleName dep = false)
    (hv : isFileValid st.validFiles dep = true) :
    classifyAsyncDep env check fileName st dep =
      some ({ st with dependencies := st.dependencies.addDependency fileName dep },
        .ok (some dep)) := by
  unfold classifyAsyncDep
  rw [if_neg (by simp [hd]), if_neg (by simp [hj])]
  dsimp only
  rw [if_pos hv]

theorem classifyAsyncDep_invalid_eq (env : Env)
    (check : State → String → Option (State × Except JsErr (List String)))
    (fileName : String) (st : State) (dep : String) (stc : State) (rc : List String)
    (hd : isTypeDeclarationName dep = false) (hj : isRequiredModuleName dep = false)
    (hv : isFileValid st.validFiles dep = false)
    (hc : check { st with dependencies := st.dependencies.addDependency fileName dep, validFiles := markFileValid st.validFiles dep } dep = some (stc, .ok rc)) :
    classifyAsyncDep env check fileName st dep = some (stc, .ok (some dep)) := by
  unfold classifyAsyncDep
  rw [if_neg (by simp [hd]), if_neg (by simp [hj])]
  dsimp only
  rw [if_neg (by simp [hv]), hc]

theorem classifySyncDep_invalid_eq (env : Env)
    (check : State → String → Option (State × Except JsErr (List String)))
    (fileName : String) (st : State) (dep : String) (stc : State) (rc : List String)
    (hd : isTypeDeclarationName dep = false) (hj : isRequiredModuleName dep = false)
    (hv : isFileValid st.validFiles dep = false)
    (hc : check { st with dependencies := st.dependencies.addDependency fileName dep, validFiles := markFileValid st.validFiles dep } dep = some (stc, .ok rc)) :
    classifySyncDep env check fileName st dep =
      some ({ stc with validFiles := markFileInvalid stc.validFiles dep }, .ok none) := by
  unfold classifySyncDep
  rw [if_neg (by simp [hd]), if_neg (by simp [hj])]
  dsimp only
  rw [if_neg (by simp [hv]), hc]

theorem asyncLoop_cons_ok
    (classify : State → String → Option (State × Except JsErr (Option String)))
    (st : State) (dep : String) (rest : List (Except JsErr String))
    (st1 : State) (slot : Except JsErr (Option String)) (st2 : State)
    (slots : List (Except JsErr (Option String)))
    (h1 : classify st dep = some (st1, slot))
    (h2 : asyncLoop classify st1 rest = some (st2, slots)) :
    asyncLoop classify st (.ok dep :: rest) = some (st2, slot :: slots) := by
  unfold asyncLoop
  rw [h1]
  dsimp only
  rw [h2]

theorem syncLoop_cons_ok
    (classify : State → String → Option (State × Except JsErr (Option String)))
    (st : State) (dep : String) (rest : List String)
    (st1 : State) (slot : Option String) (st2 : State) (slots : List (Option String))
    (h1 : classify st dep = some (st1, .ok slot))
    (h2 : syncLoop classify st1 rest = some (st2, .ok slots)) :
    syncLoop classify st (dep :: rest) = some (st2, .ok (slot :: slots)) := by
  unfold syncLoop
  rw [h1]
  dsimp only
  rw [h2]

theorem firstRejection_cons_ok (v : Option String)
    (slots : List (Except JsErr (Option String))) :
    firstRejection (.ok v :: slots) = firstRejection slots := by
  simp [firstRejection]

/-- A list of specifiers that all resolve successfully yields the same
resolved list through the sequential all-or-nothing map and through the
concurrent per-import chains. -/
theorem resolveAll_of_safe (resolver : String → String → Except String String)
    (root : String) (P : String → Prop) :
    ∀ (specs : List String),
      (∀ spec ∈ specs, ∃ dep, resolveSync resolver root spec = .ok dep ∧ P dep) →
      ∃ L, resolveAllSync resolver root specs = .ok L ∧
        specs.map (resolveAsync resolver root) = L.map Except.ok ∧
        ∀ dep ∈ L, P dep := by
  intro specs
  induction specs with
  | nil =>
      intro _
      exact ⟨[], rfl, rfl, by simp⟩
  | cons spec rest ih =>
      intro hsafe
      obtain ⟨dep, hdep, hP⟩ := hsafe spec (by simp)
      obtain ⟨L, hL1, hL2, hL3⟩ := ih (fun s hs => hsafe s (by simp [hs]))
      refine ⟨dep :: L, ?_, ?_, ?_⟩
      · unfold resolveAllSync
        rw [hdep, hL1]
      · simp only [List.map_cons, resolveAsync_eq_resolveSync, hdep, hL2]
      · intro d hd
        rcases List.mem_cons.mp hd with hd2 | hd2
        · exact hd2 ▸ hP
        · exact hL3 d hd2

/-- Core of the restricted mode-equivalence: scanning one unit's resolved
imports, where each import is either a `.js` module or an import-free
unit, the concurrent and sequential loops succeed and leave equal
dependency managers.  The invariants carried: the two managers agree; the
sequential run's validity flags are all unset (its `finally` clears each
as it unwinds); and every unit the concurrent run has flagged is a
non-root unit whose recorded entry is empty. -/
theorem C1_loop (env : Env) (k : Nat) (root : String)
    (hfs : ∀ p, ∃ t, env.fsRead p = .ok t) :
    ∀ (L : List String) (stA stS : State),
      (∀ dep ∈ L, isTypeDeclarationName dep = false ∧
        (isRequiredModuleName dep = true ∨
          (env.imports dep = [] ∧ env.imports root ≠ []))) →
      stA.dependencies = stS.dependencies →
      (∀ u, isFileValid stS.validFiles u = false) →
      (∀ u, isFileValid stA.validFiles u = true →
        u ≠ root ∧ lookupA stA.dependencies.dependencies u = some []) →
      ∃ stA' stS' slots slots2,
        asyncLoop (classifyAsyncDep env
            (fun s2 f2 => checkDependenciesF env (k + 1) s2 f2) root)
          stA (L.map Except.ok) = some (stA', slots) ∧
        firstRejection slots = none ∧
        syncLoop (classifySyncDep env
            (fun s2 f2 => checkDependenciesSyncF env (k + 1) s2 f2) root)
          stS L = some (stS', .ok slots2) ∧
        stA'.dependencies = stS'.dependencies ∧
        (∀ u, isFileValid stS'.validFiles u = false) ∧
        (∀ u, isFileValid stA'.validFiles u = true →
          u ≠ root ∧ lookupA stA'.dependencies.dependencies u = some []) := by
  intro L
  induction L with
  | nil =>
      intro stA stS _ hdm hvS hvA
      exact ⟨stA, stS, [], [], rfl, rfl, rfl, hdm, hvS, hvA⟩
  | cons dep rest ih =>
      intro stA stS hL hdm hvS hvA
      obtain ⟨hdecl, hcase⟩ := hL dep (by simp)
      by_cases hj : isRequiredModuleName dep = true
      · -- a `.js` module: both classifications are no-ops
        obtain ⟨stA', stS', slots, slots2, hA, hFR, hS, hdm', hvS', hvA'⟩ :=
          ih stA stS (fun d hd => hL d (by simp [hd])) hdm hvS hvA
        refine ⟨stA', stS', .ok none :: slots, none :: slots2, ?_, ?_, ?_, hdm', hvS', hvA'⟩
        · exact asyncLoop_cons_ok _ _ _ _ _ _ _ _
            (classifyAsyncDep_js_eq env _ root stA dep hdecl hj) hA
        · rw [firstRejection_cons_ok]
          exact hFR
        · exact syncLoop_cons_ok _ _ _ _ _ _ _ _
            (classifySyncDep_js_eq env _ root stS dep hdecl hj) hS
      · -- an import-free unit
        have hjs : isRequiredModuleName dep = false := by simpa using hj
        obtain ⟨himp, hroot⟩ : env.imports dep = [] ∧ env.imports root ≠ [] := by
          rcases hcase with hx | hx
          · exact absurd hx hj
          · exact hx
        have hdnr : dep ≠ root := fun h => hroot (by rw [← h]; exact himp)
        -- the sequential side always recurses into the (unset) unit
        obtain ⟨filesS, hchS⟩ := leaf_check_sync env k dep himp hfs
          { stS with dependencies := stS.dependencies.addDependency root dep, validFiles := markFileValid stS.validFiles dep }
        have hclS := classifySyncDep_invalid_eq env
          (fun s2 f2 => checkDependenciesSyncF env (k + 1) s2 f2) root stS dep _ []
          hdecl hjs (hvS dep) hchS
        -- the post-step sequential state
        have hvS2 : ∀ u, isFileValid (markFileInvalid (markFileValid stS.validFiles dep) dep) u = false := by
          intro u
          by_cases hu : u = dep
          · subst hu
            exact isFileValid_markFileInvalid_self _ _
          · rw [isFileValid_markFileInvalid_ne _ _ _ hu,
              isFileValid_markFileValid_ne _ _ _ hu]
            exact hvS u
        by_cases hv : isFileValid stA.validFiles dep = true
        · -- the concurrent side skips: the unit's entry is already empty
          obtain ⟨hunr, hlook⟩ := hvA dep hv
          have hclA := classifyAsyncDep_valid_eq env
            (fun s2 f2 => checkDependenciesF env (k + 1) s2 f2) root stA dep hdecl hjs hv
          have hlook1 : lookupA (stA.dependencies.addDependency root dep).dependencies dep = some [] := by
            rw [lookupA_addDependency_ne _ _ _ _ hdnr]
            exact hlook
          have hclear : (stA.dependencies.addDependency root dep).clearDependencies dep =
              stA.dependencies.addDependency root dep := by
            unfold DependencyManager.clearDependencies
            rw [setA_self_value _ _ _ hlook1]
          have hdm2 : ({ stA with dependencies := stA.dependencies.addDependency root dep } : State).dependencies =
              ({ stS with files := filesS, dependencies := (stS.dependencies.addDependency root dep).clearDependencies dep, validFiles := markFileInvalid (markFileValid stS.validFiles dep) dep } : State).dependencies := by
            dsimp only
            rw [← hdm, hclear]
          have hvA2 : ∀ u, isFileValid ({ stA with dependencies := stA.dependencies.addDependency root dep } : State).validFiles u = true →
              u ≠ root ∧ lookupA ({ stA with dependencies := stA.dependencies.addDependency root dep } : State).dependencies.dependencies u = some [] := by
            intro u hu
            obtain ⟨h3, h4⟩ := hvA u hu
            refine ⟨h3, ?_⟩
            dsimp only
            rw [lookupA_addDependency_ne _ _ _ _ h3]
            exact h4
          obtain ⟨stA', stS', slots, slots2, hA, hFR, hS, hdm', hvS', hvA'⟩ :=
            ih { stA with dependencies := stA.dependencies.addDependency root dep }
              { stS with files := filesS, dependencies := (stS.dependencies.addDependency root dep).clearDependencies dep, validFiles := markFileInvalid (markFileValid stS.validFiles dep) dep }
              (fun d hd => hL d (by simp [hd])) hdm2 hvS2 hvA2
          refine ⟨stA', stS', .ok (some dep) :: slots, none :: slots2, ?_, ?_, ?_, hdm', hvS', hvA'⟩
          · exact asyncLoop_cons_ok _ _ _ _ _ _ _ _ hclA hA
          · rw [firstRejection_cons_ok]
            exact hFR
          · exact syncLoop_cons_ok _ _ _ _ _ _ _ _ hclS hS
        · -- the concurrent side also recurses into the unit
          have hvf : isFileValid stA.validFiles dep = false := by simpa using hv
          obtain ⟨filesA, hchA⟩ := leaf_check_async env k dep himp hfs
            { stA with dependencies := stA.dependencies.addDependency root dep, validFiles := markFileValid stA.validFiles dep }
          have hclA := classifyAsyncDep_invalid_eq env
            (fun s2 f2 => checkDependenciesF env (k + 1) s2 f2) root stA dep _ []
            hdecl hjs hvf hchA
          have hdm2 : ({ stA with files := filesA, dependencies := (stA.dependencies.addDependency root dep).clearDependencies dep, validFiles := markFileValid stA.validFiles dep } : State).dependencies =
              ({ stS with files := filesS, dependencies := (stS.dependencies.addDependency root dep).clearDependencies dep, validFiles := markFileInvalid (markFileValid stS.validFiles dep) dep } : State).dependencies := by
            dsimp only
            rw [hdm]
          have hvA2 : ∀ u, isFileValid ({ stA with files := filesA, dependencies := (stA.dependencies.addDependency root dep).clearDependencies dep, validFiles := markFileValid stA.validFiles dep } : State).validFiles u = true →
              u ≠ root ∧ lookupA ({ stA with files := filesA, dependencies := (stA.dependencies.addDependency root dep).clearDependencies dep, validFiles := markFileValid stA.validFiles dep } : State).dependencies.dependencies u = some [] := by
            intro u hu
            dsimp only at hu ⊢
            by_cases hu2 : u = dep
            · subst hu2
              refine ⟨hdnr, ?_⟩
              unfold DependencyManager.clearDependencies
              dsimp only
              exact lookupA_setA_self _ _ _
            · rw [isFileValid_markFileValid_ne _ _ _ hu2] at hu
              obtain ⟨h3, h4⟩ := hvA u hu
              refine ⟨h3, ?_⟩
              unfold DependencyManager.clearDependencies
              dsimp only
              rw [lookupA_setA_ne _ _ _ _ hu2, lookupA_addDependency_ne _ _ _ _ h3]
              exact h4
          obtain ⟨stA', stS', slots, slots2, hA, hFR, hS, hdm', hvS', hvA'⟩ :=
            ih { stA with files := filesA, dependencies := (stA.dependencies.addDependency root dep).clearDependencies dep, validFiles := markFileValid stA.validFiles dep }
              { stS with files := filesS, dependencies := (stS.dependencies.addDependency root dep).clearDependencies dep, validFiles := markFileInvalid (markFileValid stS.validFiles dep) dep }
              (fun d hd => hL d (by simp [hd])) hdm2 hvS2 hvA2
          refine ⟨stA', stS', .ok (some dep) :: slots, none :: slots2, ?_, ?_, ?_, hdm', hvS', hvA'⟩
          · exact asyncLoop_cons_ok _ _ _ _ _ _ _ _ hclA hA
          · rw [firstRejection_cons_ok]
            exact hFR
          · exact syncLoop_cons_ok _ _ _ _ _ _ _ _ hclS hS

/-- Assemble a successful internal concurrent pass from a successful loop
run. -/
theorem internalAsync_of_loop (env : Env) (k : Nat) (root : String) (stm : State)
    (stA' : State) (slots : List (Except JsErr (Option String)))
    (hA : asyncLoop (classifyAsyncDep env
        (fun s2 f2 => checkDependenciesF env (k + 1) s2 f2) root)
      stm ((env.imports root).map (resolveAsync env.resolver root)) = some (stA', slots))
    (hFR : firstRejection slots = none) :
    checkDependenciesInternalAsyncF env
      (fun s2 f2 => checkDependenciesF env (k + 1) s2 f2) stm root =
    some (stA', .ok ((slots.filterMap Except.toOption).filterMap id)) := by
  unfold checkDependenciesInternalAsyncF
  dsimp only
  rw [hA]
  dsimp only
  rw [hFR]

/-- Assemble a successful internal sequential pass from a successful loop
run. -/
theorem internalSync_of_loop (env : Env) (k : Nat) (root : String) (stm : State)
    (L : List String) (stS' : State) (slots2 : List (Option String))
    (hAll : resolveAllSync env.resolver root (env.imports root) = .ok L)
    (hS : syncLoop (classifySyncDep env
        (fun s2 f2 => checkDependenciesSyncF env (k + 1) s2 f2) root)
      stm L = some (stS', .ok slots2)) :
    checkDependenciesInternalSyncF env
      (fun s2 f2 => checkDependenciesSyncF env (k + 1) s2 f2) stm root =
    some (stS', .ok (slots2.filterMap id)) := by
  unfold checkDependenciesInternalSyncF
  rw [hAll]
  dsimp only
  rw [hS]

/-- C1 amended: the two modes are *not* equivalent in general (see the
counterexample: on a resolution failure the concurrent mode keeps edges
from sibling imports the sequential mode never records, and even fully
successful passes can differ in duplicate edge counts).  Equivalence does
hold on depth-one graphs: when the filesystem read succeeds everywhere,
no validity flag is preset, and every import of the root resolves
successfully to either a `.js` module or an import-free unit, both modes
succeed from the same initial state and leave identical dependency
managers (the dependency map *and* the declaration registry). -/
theorem C1_amended_mode_equivalence_on_leaf_graphs (env : Env) (st : State)
    (root : String) (k : Nat)
    (hfs : ∀ p, ∃ t, env.fsRead p = .ok t)
    (hvalid : ∀ u, isFileValid st.validFiles u = false)
    (hsafe : ∀ spec ∈ env.imports root, ∃ dep,
      resolveSync env.resolver root spec = .ok dep ∧
      isTypeDeclarationName dep = false ∧
      (isRequiredModuleName dep = true ∨ env.imports dep = [])) :
    ∃ stA stS rA rS,
      checkDependenciesF env (k + 2) st root = some (stA, .ok rA) ∧
      checkDependenciesSyncF env (k + 2) st root = some (stS, .ok rS) ∧
      stA.dependencies = stS.dependencies := by
  have hsafe' : ∀ spec ∈ env.imports root, ∃ dep,
      resolveSync env.resolver root spec = .ok dep ∧
      (isTypeDeclarationName dep = false ∧
        (isRequiredModuleName dep = true ∨
          (env.imports dep = [] ∧ env.imports root ≠ []))) := by
    intro spec hs
    obtain ⟨dep, h1, h2, h3⟩ := hsafe spec hs
    exact ⟨dep, h1, h2, h3.imp id (fun h => ⟨h, List.ne_nil_of_mem hs⟩)⟩
  obtain ⟨L, hAll, hMap, hP⟩ := resolveAll_of_safe env.resolver root _ (env.imports root) hsafe'
  have h22 : k + 2 = (k + 1) + 1 := rfl
  rcases hf : lookupA st.files root with _ | fl
  · -- the concurrent wrapper skips the read; the sequential one reads
    obtain ⟨t, hr⟩ := hfs root
    obtain ⟨stA', stS', slots, slots2, hA, hFR, hS, hdm', hvS', hvA'⟩ :=
      C1_loop env k root hfs L
        { st with dependencies := st.dependencies.clearDependencies root }
        { st with files := (updateFile st.files root t false).1, dependencies := st.dependencies.clearDependencies root }
        hP rfl (fun u => hvalid u)
        (fun u hu => by rw [show ({ st with dependencies := st.dependencies.clearDependencies root } : State).validFiles = st.validFiles from rfl, hvalid u] at hu; cases hu)
    refine ⟨stA', stS', (slots.filterMap Except.toOption).filterMap id,
      slots2.filterMap id, ?_, ?_, hdm'⟩
    · rw [h22]
      unfold checkDependenciesF
      dsimp only
      rw [hf]
      exact internalAsync_of_loop env k root _ stA' slots (by rw [hMap]; exact hA) hFR
    · rw [h22]
      unfold checkDependenciesSyncF
      dsimp only
      rw [hf, hr]
      dsimp only
      exact internalSync_of_loop env k root _ L stS' slots2 hAll hS
  · -- the concurrent wrapper re-reads; the sequential one skips the read
    obtain ⟨t, hr⟩ := hfs root
    obtain ⟨stA', stS', slots, slots2, hA, hFR, hS, hdm', hvS', hvA'⟩ :=
      C1_loop env k root hfs L
        { st with files := (updateFile st.files root t false).1, dependencies := st.dependencies.clearDependencies root }
        { st with dependencies := st.dependencies.clearDependencies root }
        hP rfl (fun u => hvalid u)
        (fun u hu => by rw [show ({ st with files := (updateFile st.files root t false).1, dependencies := st.dependencies.clearDependencies root } : State).validFiles = st.validFiles from rfl, hvalid u] at hu; cases hu)
    refine ⟨stA', stS', (slots.filterMap Except.toOption).filterMap id,
      slots2.filterMap id, ?_, ?_, hdm'⟩
    · rw [h22]
      unfold checkDependenciesF
      dsimp only
      rw [hf, hr]
      dsimp only
      exact internalAsync_of_loop env k root _ stA' slots (by rw [hMap]; exact hA) hFR
    · rw [h22]
      unfold checkDependenciesSyncF
      dsimp only
      rw [hf]
      exact internalSync_of_loop env k root _ L stS' slots2 hAll hS

/-- C1 counterexample: the two resolution modes can leave different
dependency-map contents from the same initial state, fixed resolver and
fixed source graph.  First scenario (a resolution failure): `A.ts`
imports `G` (resolvable) and `H` (unresolvable); the concurrent mode
records the sibling edge `A.ts → G.ts` and an entry for `G.ts` before the
join rejects, while the sequential mode resolves all imports before
classifying any and so records no edge at all.  Second scenario (a fully
successful pass on the cyclic graph `A → B,C`, `B → A`, `C → A`): the
sequential mode's always-reset validity flags make it re-enter `C` and
re-clear `A`'s list, so the concurrent mode keeps a duplicate edge
(`A.ts → [B.ts, C.ts, C.ts]`) the sequential mode does not. -/
theorem C1_counterexample_modes_differ :
    ((checkDependenciesF
        ⟨fun _ d => if d = "G.ts" then .ok "G.ts" else .error "not found",
          fun f => if f = "A.ts" then ["G", "H"] else [],
          fun _ => .ok "", ⟨fun _ => ⟨false, []⟩, [], fun _ => [], fun _ => []⟩⟩
        5 ⟨[], ⟨[], []⟩, [], false⟩ "A.ts").map
          (fun p => p.1.dependencies.dependencies) =
      some [("A.ts", ["G.ts"]), ("G.ts", [])] ∧
    (checkDependenciesSyncF
        ⟨fun _ d => if d = "G.ts" then .ok "G.ts" else .error "not found",
          fun f => if f = "A.ts" then ["G", "H"] else [],
          fun _ => .ok "", ⟨fun _ => ⟨false, []⟩, [], fun _ => [], fun _ => []⟩⟩
        5 ⟨[], ⟨[], []⟩, [], false⟩ "A.ts").map
          (fun p => p.1.dependencies.dependencies) =
      some [("A.ts", [])] ∧
    ([("A.ts", ["G.ts"]), ("G.ts", [])] : List (String × List String)) ≠
      [("A.ts", [])]) ∧
    ((checkDependenciesF
        ⟨fun _ d => .ok d,
          fun f => if f = "A.ts" then ["B.ts", "C.ts"]
            else if f = "B.ts" then ["A.ts"]
            else if f = "C.ts" then ["A.ts"] else [],
          fun _ => .ok "", ⟨fun _ => ⟨false, []⟩, [], fun _ => [], fun _ => []⟩⟩
        10 ⟨[], ⟨[], []⟩, [], false⟩ "A.ts").map
          (fun p => p.1.dependencies.dependencies) =
      some [("A.ts", ["B.ts", "C.ts", "C.ts"]), ("B.ts", ["A.ts"]), ("C.ts", ["A.ts"])] ∧
    (checkDependenciesSyncF
        ⟨fun _ d => .ok d,
          fun f => if f = "A.ts" then ["B.ts", "C.ts"]
            else if f = "B.ts" then ["A.ts"]
            else if f = "C.ts" then ["A.ts"] else [],
          fun _ => .ok "", ⟨fun _ => ⟨false, []⟩, [], fun _ => [], fun _ => []⟩⟩
        10 ⟨[], ⟨[], []⟩, [], false⟩ "A.ts").map
          (fun p => p.1.dependencies.dependencies) =
      some [("A.ts", ["B.ts", "C.ts"]), ("B.ts", ["A.ts"]), ("C.ts", ["A.ts"])] ∧
    ([("A.ts", ["B.ts", "C.ts", "C.ts"]), ("B.ts", ["A.ts"]), ("C.ts", ["A.ts"])] :
        List (String × List String)) ≠
      [("A.ts", ["B.ts", "C.ts"]), ("B.ts", ["A.ts"]), ("C.ts", ["A.ts"])]) := by
  exact ⟨⟨by decide, by decide, by decide⟩, ⟨by decide, by decide, by decide⟩⟩

/-- C1 witness: the restricted equivalence applied to the depth-one graph
`A.ts → [B.ts, m.js]` with an identity resolver, a total filesystem and no
preset validity flags. -/
theorem C1_amended_mode_equivalence_witness :
    (∀ p, ∃ t, (fun (_ : String) => (.ok "" : Except String String)) p = .ok t) ∧
    (∃ stA stS rA rS,
      checkDependenciesF
        ⟨fun _ d => .ok d,
          fun f => if f = "A.ts" then ["B.ts", "m.js"] else [],
          fun _ => .ok "", ⟨fun _ => ⟨false, []⟩, [], fun _ => [], fun _ => []⟩⟩
        3 ⟨[], ⟨[], []⟩, [], false⟩ "A.ts" = some (stA, .ok rA) ∧
      checkDependenciesSyncF
        ⟨fun _ d => .ok d,
          fun f => if f = "A.ts" then ["B.ts", "m.js"] else [],
          fun _ => .ok "", ⟨fun _ => ⟨false, []⟩, [], fun _ => [], fun _ => []⟩⟩
        3 ⟨[], ⟨[], []⟩, [], false⟩ "A.ts" = some (stS, .ok rS) ∧
      stA.dependencies = stS.dependencies) := by
  refine ⟨fun p => ⟨"", rfl⟩, ?_⟩
  exact C1_amended_mode_equivalence_on_leaf_graphs
    ⟨fun _ d => .ok d,
      fun f => if f = "A.ts" then ["B.ts", "m.js"] else [],
      fun _ => .ok "", ⟨fun _ => ⟨false, []⟩, [], fun _ => [], fun _ => []⟩⟩
    ⟨[], ⟨[], []⟩, [], false⟩ "A.ts" 1
    (fun p => ⟨"", rfl⟩) (fun u => rfl)
    (by
      intro spec hs
      simp at hs
      rcases hs with rfl | rfl
      · exact ⟨"B.ts", by rfl, by decide, Or.inr (by rfl)⟩
      · exact ⟨"m.js", by rfl, by decide, Or.inl (by decide)⟩)

/-! ## Claim C2 — accumulator finalisation in the compilation facade -/

/-- The chain-applier loop only appends to the accumulator, provided the
recursion step does. -/
theorem applyChainLoop_acc_extends
    (step : DependencyManager × List String × List String × List String → String →
      Option (DependencyManager × List String × List String × List String))
    (hstep : ∀ s d s', step s d = some s' → ∃ t, s'.2.1 = s.2.1 ++ t) :
    ∀ (L : List String) (s s' : DependencyManager × List String × List String × List String),
      applyChainLoop step s L = some s' → ∃ t, s'.2.1 = s.2.1 ++ t := by
  intro L
  induction L with
  | nil =>
      intro s s' h
      cases h
      exact ⟨[], by simp⟩
  | cons d rest ih =>
      intro s s' h
      obtain ⟨dm, deps, appliedChains, appliedDeps⟩ := s
      unfold applyChainLoop at h
      dsimp only at h
      by_cases h1 : d ∈ appliedDeps
      · rw [if_pos h1] at h
        by_cases h2 : d ∈ appliedChains
        · rw [if_pos h2] at h
          exact ih _ _ h
        · rw [if_neg h2] at h
          rcases hs : step (dm, deps, appliedChains, appliedDeps) d with _ | s1
          · rw [hs] at h
            cases h
          · rw [hs] at h
            obtain ⟨t1, ht1⟩ := hstep _ _ _ hs
            obtain ⟨t2, ht2⟩ := ih _ _ h
            exact ⟨t1 ++ t2, by rw [ht2, ht1, List.append_assoc]⟩
      · rw [if_neg h1] at h
        by_cases h2 : d ∈ appliedChains
        · rw [if_pos h2] at h
          obtain ⟨t2, ht2⟩ := ih _ _ h
          exact ⟨[d] ++ t2, by rw [ht2]; simp⟩
        · rw [if_neg h2] at h
          rcases hs : step (dm, deps ++ [d], appliedChains, setAdd appliedDeps d) d with _ | s1
          · rw [hs] at h
            cases h
          · rw [hs] at h
            obtain ⟨t1, ht1⟩ := hstep _ _ _ hs
            obtain ⟨t2, ht2⟩ := ih _ _ h
            refine ⟨[d] ++ t1 ++ t2, ?_⟩
            rw [ht2, ht1]
            simp

/-- `applyChain` only appends to the caller's accumulator. -/
theorem applyChainF_acc_extends :
    ∀ (fuel : Nat) (dm : DependencyManager) (fileName : String)
      (deps appliedChains appliedDeps : List String)
      (s' : DependencyManager × List String × List String × List String),
      applyChainF fuel dm fileName deps appliedChains appliedDeps = some s' →
      ∃ t, s'.2.1 = deps ++ t := by
  intro fuel
  induction fuel with
  | zero =>
      intro dm fileName deps appliedChains appliedDeps s' h
      cases h
  | succ n ih =>
      intro dm fileName deps appliedChains appliedDeps s' h
      unfold applyChainF at h
      dsimp only at h
      by_cases h1 : ".d.ts" ∈ setAdd appliedChains fileName
      · rw [if_pos h1] at h
        obtain ⟨t, ht⟩ := applyChainLoop_acc_extends _
          (fun s d s2 hs => ih s.1 d s.2.1 s.2.2.1 s.2.2.2 s2 hs) _ _ _ h
        exact ⟨t, ht⟩
      · rw [if_neg h1] at h
        obtain ⟨t, ht⟩ := applyChainLoop_acc_extends _
          (fun s d s2 hs => ih s.1 d s.2.1 s.2.2.1 s.2.2.2 s2 hs) _ _ _ h
        dsimp only at ht
        refine ⟨(if hasKeyA dm.dependencies fileName then dm
          else dm.clearDependencies fileName).knownTypeDeclarations ++ t, ?_⟩
        rw [ht, List.append_assoc]

/-- C2 counterexample: on a resolution failure, `emitSync` completes with
the caller's accumulator untouched (here still `["stale"]`), because the
dependency check runs before the `try`/`finally` that guards `applyDeps`.
The resolver always fails and `"A.ts"` has one import. -/
theorem C2_counterexample_emitSync_skips_applyDeps :
    emitSync
      ⟨fun _ _ => .error "nope", fun f => if f = "A.ts" then ["b"] else [],
        fun _ => .ok "", ⟨fun _ => ⟨false, []⟩, [], fun _ => [], fun _ => []⟩⟩
      5 ⟨[], ⟨[], []⟩, [], false⟩ "A.ts" "" ["stale"] =
    some (⟨[("A.ts", ⟨"", 0⟩)], ⟨[("A.ts", [])], []⟩, [], true⟩, ["stale"],
      .error (.resolutionError "nope\n    Required in A.ts" "A.ts")) := by
  decide

/-- C2 amended: `emitAsync` finalises the accumulator on every exit path —
its result never depends on the accumulator's prior contents, and whenever
it completes, the accumulator has been cleared and repopulated through
`applyDeps` (it starts with the compiled unit itself).  `emitSync` does
the same on the normal, diagnostics-failure and emission-skipped paths,
but when dependency checking throws, it completes with the accumulator
exactly as the caller left it. -/
theorem C2_amended_applyDeps_finalisation :
    (∀ (env : Env) (fuel : Nat) (st : State) (fileName text : String)
        (acc1 acc2 : List String),
      emitAsync env fuel st fileName text acc1 = emitAsync env fuel st fileName text acc2) ∧
    (∀ (env : Env) (fuel : Nat) (st : State) (fileName text : String)
        (acc : List String) (st' : State) (acc' : List String)
        (res : Except JsErr EmitOutput),
      emitAsync env fuel st fileName text acc = some (st', acc', res) →
      ∃ tail, acc' = fileName :: tail) ∧
    (∀ (env : Env) (fuel : Nat) (st : State) (fileName text : String)
        (acc : List String) (st1 : State) (e : JsErr),
      checkDependenciesSyncF env fuel (invokeRuntime st) fileName = some (st1, .error e) →
      emitSync env fuel st fileName text acc = some (st1, acc, .error e)) ∧
    (∀ (env : Env) (fuel : Nat) (st : State) (fileName text : String)
        (acc : List String) (st1 : State) (v : List String),
      checkDependenciesSyncF env fuel (invokeRuntime st) fileName = some (st1, .ok v) →
      ∀ (st' : State) (acc' : List String) (res : Except JsErr EmitOutput),
        emitSync env fuel st fileName text acc = some (st', acc', res) →
        ∃ tail, acc' = fileName :: tail) := by
  refine ⟨?_, ?_, ?_, ?_⟩
  · intro env fuel st fileName text acc1 acc2
    rfl
  · intro env fuel st fileName text acc st' acc' res h
    unfold emitAsync at h
    dsimp only at h
    rcases hc : checkDependenciesF env fuel (invokeRuntime st) fileName with _ | p
    · rw [hc] at h
      cases h
    · rw [hc] at h
      obtain ⟨st1, r⟩ := p
      dsimp only at h
      rcases ha : applyDeps fuel st1 fileName with _ | q
      · rw [ha] at h
        cases h
      · rw [ha] at h
        obtain ⟨st2, deps⟩ := q
        dsimp only at h
        simp only [Option.some.injEq, Prod.mk.injEq] at h
        obtain ⟨-, h5, -⟩ := h
        subst h5
        unfold applyDeps at ha
        rcases hch : applyChainF fuel st1.dependencies fileName [fileName] [] [] with _ | s'
        · rw [hch] at ha
          cases ha
        · rw [hch] at ha
          obtain ⟨dmx, depsx, cx, ax⟩ := s'
          dsimp only at ha
          simp only [Option.some.injEq, Prod.mk.injEq] at ha
          obtain ⟨-, h6, -⟩ := ha
          obtain ⟨t, ht⟩ := applyChainF_acc_extends fuel st1.dependencies fileName
            [fileName] [] [] _ hch
          dsimp only at ht
          exact ⟨t, by simpa using ht⟩
  · intro env fuel st fileName text acc st1 e hc
    unfold emitSync
    dsimp only
    rw [hc]
  · intro env fuel st fileName text acc st1 v hc st' acc' res h
    unfold emitSync at h
    dsimp only at h
    rw [hc] at h
    dsimp only at h
    rcases ha : applyDeps fuel st1 fileName with _ | q
    · rw [ha] at h
      cases h
    · rw [ha] at h
      obtain ⟨st2, deps⟩ := q
      dsimp only at h
      simp only [Option.some.injEq, Prod.mk.injEq] at h
      obtain ⟨-, h5, -⟩ := h
      subst h5
      unfold applyDeps at ha
      rcases hch : applyChainF fuel st1.dependencies fileName [fileName] [] [] with _ | s'
      · rw [hch] at ha
        cases ha
      · rw [hch] at ha
        obtain ⟨dmx, depsx, cx, ax⟩ := s'
        dsimp only at ha
        simp only [Option.some.injEq, Prod.mk.injEq] at ha
        obtain ⟨-, h6, -⟩ := ha
        obtain ⟨t, ht⟩ := applyChainF_acc_extends fuel st1.dependencies fileName
          [fileName] [] [] _ hch
        dsimp only at ht
        exact ⟨t, by simpa using ht⟩

/-- C2 witness: the amended theorem applied concretely — part 2 on an
import-free unit with a stale accumulator (the result restarts from the
unit itself), and part 3 on the failing-resolver scenario of the
counterexample. -/
theorem C2_amended_applyDeps_finalisation_witness :
    (emitAsync
        ⟨fun _ d => .ok d, fun _ => [], fun _ => .ok "",
          ⟨fun _ => ⟨false, ["out"]⟩, [], fun _ => [], fun _ => []⟩⟩
        5 ⟨[], ⟨[], []⟩, [], false⟩ "A.ts" "" ["stale"] =
      some (⟨[], ⟨[("A.ts", [])], []⟩, [], true⟩, ["A.ts"], .ok ⟨false, ["out"]⟩)) ∧
    (∃ tail, ["A.ts"] = "A.ts" :: tail) ∧
    (checkDependenciesSyncF
        ⟨fun _ _ => .error "nope", fun f => if f = "A.ts" then ["b"] else [],
          fun _ => .ok "", ⟨fun _ => ⟨false, []⟩, [], fun _ => [], fun _ => []⟩⟩
        5 (invokeRuntime ⟨[], ⟨[], []⟩, [], false⟩) "A.ts" =
      some (⟨[("A.ts", ⟨"", 0⟩)], ⟨[("A.ts", [])], []⟩, [], true⟩,
        .error (.resolutionError "nope\n    Required in A.ts" "A.ts"))) ∧
    (emitSync
        ⟨fun _ _ => .error "nope", fun f => if f = "A.ts" then ["b"] else [],
          fun _ => .ok "", ⟨fun _ => ⟨false, []⟩, [], fun _ => [], fun _ => []⟩⟩
        5 ⟨[], ⟨[], []⟩, [], false⟩ "A.ts" "" ["stale"] =
      some (⟨[("A.ts", ⟨"", 0⟩)], ⟨[("A.ts", [])], []⟩, [], true⟩, ["stale"],
        .error (.resolutionError "nope\n    Required in A.ts" "A.ts"))) := by
  refine ⟨by decide, ?_, by decide, ?_⟩
  · exact C2_amended_applyDeps_finalisation.2.1
      ⟨fun _ d => .ok d, fun _ => [], fun _ => .ok "",
        ⟨fun _ => ⟨false, ["out"]⟩, [], fun _ => [], fun _ => []⟩⟩
      5 ⟨[], ⟨[], []⟩, [], false⟩ "A.ts" "" ["stale"]
      ⟨[], ⟨[("A.ts", [])], []⟩, [], true⟩ ["A.ts"] (.ok ⟨false, ["out"]⟩) (by decide)
  · exact C2_amended_applyDeps_finalisation.2.2.1
      ⟨fun _ _ => .error "nope", fun f => if f = "A.ts" then ["b"] else [],
        fun _ => .ok "", ⟨fun _ => ⟨false, []⟩, [], fun _ => [], fun _ => []⟩⟩
      5 ⟨[], ⟨[], []⟩, [], false⟩ "A.ts" "" ["stale"]
      ⟨[("A.ts", ⟨"", 0⟩)], ⟨[("A.ts", [])], []⟩, [], true⟩
      (.resolutionError "nope\n    Required in A.ts" "A.ts") (by decide)

/-! ## Claim C9 — compiled-module (`.js`) opacity -/

/-- A path matching the compiled-module pattern `/\.js$/` cannot match the
declaration pattern `/\.d.ts$/` (the final characters differ). -/
theorem not_typeDecl_of_requiredModule (s : String)
    (h : isRequiredModuleName s = true) : isTypeDeclarationName s = false := by
  unfold isRequiredModuleName at h
  unfold isTypeDeclarationName
  split at h
  case _ rest heq =>
    rw [heq]
    rfl
  case _ => simp at h

/-- C9: in both resolution modes, a resolved import matching `/\.js$/` is
classified to a `null` slot with the state unchanged — no dependency edge
is recorded, no declaration is registered — and the recursive resolution
continuation is never consulted (the classification result is the same for
every continuation `check`). -/
theorem C9_compiled_module_opacity (env : Env)
    (check : State → String → Option (State × Except JsErr (List String)))
    (fileName : String) (st : State) (depFileName : String)
    (hjs : isRequiredModuleName depFileName = true) :
    classifyAsyncDep env check fileName st depFileName = some (st, .ok none) ∧
    classifySyncDep env check fileName st depFileName = some (st, .ok none) := by
  have hnd : isTypeDeclarationName depFileName = false :=
    not_typeDecl_of_requiredModule depFileName hjs
  constructor <;> simp [classifyAsyncDep, classifySyncDep, hnd, hjs]

/-! ## Claim C8 — recompile reasons -/

theorem mem_setAdd (l : List String) (a x : String) :
    x ∈ setAdd l a ↔ x ∈ l ∨ x = a := by
  unfold setAdd
  by_cases h : a ∈ l
  · simp only [if_pos h]
    constructor
    · exact Or.inl
    · rintro (hx | rfl)
      · exact hx
      · exact h
  · simp only [if_neg h, List.mem_cons]
    exact Or.comm

theorem mem_foldl_setAdd (l : List String) :
    ∀ (acc : List String) (x : String), x ∈ l.foldl setAdd acc ↔ x ∈ acc ∨ x ∈ l := by
  induction l with
  | nil => simp
  | cons a t ih =>
      intro acc x
      simp only [List.foldl_cons, List.mem_cons]
      rw [ih, mem_setAdd]
      tauto

/-- `getDependencies` returns exactly the recorded dependency list. -/
theorem getDependencies_snd (dm : DependencyManager) (f : String) :
    (dm.getDependencies f).2 = depsOf dm f := by
  unfold DependencyManager.getDependencies depsOf hasKeyA
  rcases hlk : lookupA dm.dependencies f with _ | l
  · simp [hlk, DependencyManager.clearDependencies, lookupA_setA_self]
  · simp [hlk]

/-- `getDependencies` never changes any `depsOf` value (it only installs
an empty entry for a missing key). -/
theorem depsOf_getDependencies_fst (dm : DependencyManager) (f x : String) :
    depsOf (dm.getDependencies f).1 x = depsOf dm x := by
  unfold DependencyManager.getDependencies depsOf hasKeyA
  rcases hlk : lookupA dm.dependencies f with _ | l
  · by_cases hx : x = f
    · subst hx
      simp [hlk, DependencyManager.clearDependencies, lookupA_setA_self]
    · simp [hlk, DependencyManager.clearDependencies, lookupA_setA_ne _ _ _ _ hx]
  · simp [hlk]

/-- Reachability only depends on the `depsOf` view of the graph. -/
theorem reaches_congr {dm1 dm2 : DependencyManager}
    (h : ∀ x, depsOf dm1 x = depsOf dm2 x) {f c : String}
    (hr : Reaches dm1 f c) : Reaches dm2 f c := by
  induction hr with
  | direct hm => exact .direct (h _ ▸ hm)
  | step hm _ ih => exact .step (h _ ▸ hm) ih

/-- The reason-finder loop never changes any `depsOf` value, provided its
recursion continuation does not. -/
theorem recompileReasonLoop_pres (S V : List String)
    (rec : DependencyManager → String → Option (DependencyManager × List String))
    (hrec : ∀ dmx d dm2 r2, rec dmx d = some (dm2, r2) →
      ∀ x, depsOf dm2 x = depsOf dmx x) :
    ∀ (L : List String) (dmx dm' : DependencyManager) (r : List String),
      recompileReasonLoop S V rec dmx L = some (dm', r) →
      ∀ x, depsOf dm' x = depsOf dmx x := by
  intro L
  induction L with
  | nil =>
      intro dmx dm' r h x
      unfold recompileReasonLoop at h
      cases h
      rfl
  | cons d rest ih =>
      intro dmx dm' r h x
      unfold recompileReasonLoop at h
      by_cases h1 : d ∈ S
      · rw [if_pos h1] at h
        cases h
        rfl
      · rw [if_neg h1] at h
        by_cases h2 : d ∈ V
        · rw [if_pos h2] at h
          exact ih dmx dm' r h x
        · rw [if_neg h2] at h
          rcases hr : rec dmx d with _ | p
          · rw [hr] at h
            cases h
          · rw [hr] at h
            obtain ⟨dm2, internal⟩ := p
            dsimp only at h
            by_cases h3 : internal.length ≠ 0
            · rw [if_pos h3] at h
              simp only [Option.some.injEq, Prod.mk.injEq] at h
              obtain ⟨h4, -⟩ := h
              subst h4
              exact hrec dmx d dm2 internal hr x
            · rw [if_neg h3] at h
              calc depsOf dm' x = depsOf dm2 x := ih dm2 dm' r h x
                _ = depsOf dmx x := hrec dmx d dm2 internal hr x

/-- `recompileReasonInternal` never changes any `depsOf` value. -/
theorem recompileReasonInternalF_pres :
    ∀ (fuel : Nat) (dm : DependencyManager) (f : String) (S V : List String)
      (dm' : DependencyManager) (r : List String),
      recompileReasonInternalF fuel dm f S V = some (dm', r) →
      ∀ x, depsOf dm' x = depsOf dm x := by
  intro fuel
  induction fuel with
  | zero =>
      intro dm f S V dm' r h
      cases h
  | succ n ih =>
      intro dm f S V dm' r h x
      unfold recompileReasonInternalF at h
      have hloop := recompileReasonLoop_pres S (setAdd V f)
        (fun dm2 dep => recompileReasonInternalF n dm2 dep S (setAdd V f))
        (fun dmx d dm2 r2 hh => ih dmx d S (setAdd V f) dm2 r2 hh)
        (dm.getDependencies f).2 (dm.getDependencies f).1 dm' r h x
      rw [hloop]
      exact depsOf_getDependencies_fst dm f x

/-- A non-empty loop result exhibits a changed unit reachable from the
unit whose dependency list is being scanned. -/
theorem recompileReasonLoop_sound (S V : List String)
    (rec : DependencyManager → String → Option (DependencyManager × List String))
    (dm0 : DependencyManager) (f : String)
    (hrec_pres : ∀ dmx d dm2 r2, rec dmx d = some (dm2, r2) →
      ∀ x, depsOf dm2 x = depsOf dmx x)
    (hrec_sound : ∀ dmx d dm2 r2, rec dmx d = some (dm2, r2) → r2 ≠ [] →
      ∃ c, c ∈ S ∧ Reaches dmx d c) :
    ∀ (L : List String) (dmx dm' : DependencyManager) (r : List String),
      (∀ d, d ∈ L → d ∈ depsOf dm0 f) →
      (∀ x, depsOf dmx x = depsOf dm0 x) →
      recompileReasonLoop S V rec dmx L = some (dm', r) → r ≠ [] →
      ∃ c, c ∈ S ∧ Reaches dm0 f c := by
  intro L
  induction L with
  | nil =>
      intro dmx dm' r _ _ h hne
      unfold recompileReasonLoop at h
      cases h
      exact absurd rfl hne
  | cons d rest ih =>
      intro dmx dm' r hL hdmx h hne
      unfold recompileReasonLoop at h
      by_cases h1 : d ∈ S
      · rw [if_pos h1] at h
        exact ⟨d, h1, .direct (hL d (by simp))⟩
      · rw [if_neg h1] at h
        by_cases h2 : d ∈ V
        · rw [if_pos h2] at h
          exact ih dmx dm' r (fun e he => hL e (by simp [he])) hdmx h hne
        · rw [if_neg h2] at h
          rcases hr : rec dmx d with _ | p
          · rw [hr] at h
            cases h
          · rw [hr] at h
            obtain ⟨dm2, internal⟩ := p
            dsimp only at h
            by_cases h3 : internal.length ≠ 0
            · rw [if_pos h3] at h
              obtain ⟨c, hcS, hreach⟩ := hrec_sound dmx d dm2 internal hr
                (by simpa [List.length_eq_zero] using h3)
              refine ⟨c, hcS, .step (hL d (by simp)) ?_⟩
              exact reaches_congr hdmx hreach
            · rw [if_neg h3] at h
              refine ih dm2 dm' r (fun e he => hL e (by simp [he])) ?_ h hne
              intro x
              rw [hrec_pres dmx d dm2 internal hr x]
              exact hdmx x

/-- A non-empty `recompileReasonInternal` result exhibits a changed unit
reachable from the queried unit. -/
theorem recompileReasonInternalF_sound :
    ∀ (fuel : Nat) (dm : DependencyManager) (f : String) (S V : List String)
      (dm' : DependencyManager) (r : List String),
      recompileReasonInternalF fuel dm f S V = some (dm', r) → r ≠ [] →
      ∃ c, c ∈ S ∧ Reaches dm f c := by
  intro fuel
  induction fuel with
  | zero =>
      intro dm f S V dm' r h
      cases h
  | succ n ih =>
      intro dm f S V dm' r h hne
      unfold recompileReasonInternalF at h
      exact recompileReasonLoop_sound S (setAdd V f)
        (fun dm2 dep => recompileReasonInternalF n dm2 dep S (setAdd V f))
        dm f
        (fun dmx d dm2 r2 hh => recompileReasonInternalF_pres n dmx d S (setAdd V f) dm2 r2 hh)
        (fun dmx d dm2 r2 hh hne2 => ih dmx d S (setAdd V f) dm2 r2 hh hne2)
        (dm.getDependencies f).2 (dm.getDependencies f).1 dm' r
        (fun e he => by rwa [getDependencies_snd dm f] at he)
        (fun x => depsOf_getDependencies_fst dm f x)
        h hne

/-- C8: on the graph `A → B → C` with `C` changed and `B` not,
`recompileReason(A, [C])` returns exactly the path `[B, C]`; and whenever
a unit has no dependency path to any changed unit, `recompileReason`
returns the empty sequence. -/
theorem C8_recompile_reason :
    recompileReason 10 ⟨[("A", ["B"]), ("B", ["C"])], []⟩ "A" ["C"] =
      some (⟨[("A", ["B"]), ("B", ["C"])], []⟩, ["B", "C"]) ∧
    (∀ (fuel : Nat) (dm : DependencyManager) (fileName : String)
        (changedFiles : List String) (dm' : DependencyManager) (r : List String),
      recompileReason fuel dm fileName changedFiles = some (dm', r) →
      (∀ c, c ∈ changedFiles → ¬ Reaches dm fileName c) → r = []) := by
  constructor
  · decide
  · intro fuel dm fileName changedFiles dm' r h hnone
    by_contra hne
    obtain ⟨c, hcS, hreach⟩ :=
      recompileReasonInternalF_sound fuel dm fileName
        (changedFiles.foldl setAdd []) [] dm' r h hne
    have hc : c ∈ changedFiles := by
      rcases (mem_foldl_setAdd changedFiles [] c).mp hcS with hx | hx
      · cases hx
      · exact hx
    exact hnone c hc hreach

/-- C8 witness: the theorem applied on the same graph at the isolated unit
`"Z"` (no entry, hence no outgoing edges, hence no path to the changed
unit `"C"`). -/
theorem C8_recompile_reason_witness :
    recompileReason 10 ⟨[("A", ["B"]), ("B", ["C"])], []⟩ "Z" ["C"] =
      some (⟨[("A", ["B"]), ("B", ["C"]), ("Z", [])], []⟩, []) ∧
    ([] : List String) = [] := by
  have hnp : ∀ c, c ∈ ["C"] →
      ¬ Reaches ⟨[("A", ["B"]), ("B", ["C"])], []⟩ "Z" c := by
    intro c _ hre
    cases hre with
    | direct hm => simp [depsOf, lookupA] at hm
    | step hm _ => simp [depsOf, lookupA] at hm
  exact ⟨by decide,
    C8_recompile_reason.2 10 ⟨[("A", ["B"]), ("B", ["C"])], []⟩ "Z" ["C"]
      ⟨[("A", ["B"]), ("B", ["C"]), ("Z", [])], []⟩ [] (by decide) hnp⟩

/-- C9 witness: the opacity theorem applied to the resolved path
`"lib/m.js"` in a non-trivial state, with a continuation that would
diverge if it were ever consulted. -/
theorem C9_compiled_module_opacity_witness :
    isRequiredModuleName "lib/m.js" = true ∧
    classifyAsyncDep
      ⟨fun _ d => .ok d, fun _ => [], fun _ => .ok "", ⟨fun _ => ⟨false, []⟩, [], fun _ => [], fun _ => []⟩⟩
      (fun _ _ => none) "a.ts" ⟨[], ⟨[], []⟩, [], false⟩ "lib/m.js" =
      some (⟨[], ⟨[], []⟩, [], false⟩, .ok none) := by
  refine ⟨by decide, ?_⟩
  exact (C9_compiled_module_opacity _ (fun _ _ => none) "a.ts" _ "lib/m.js" (by decide)).1

end Host
